import Mathlib

/-!
Shallow embedding of the feature-and-dependency resolver from
crate_universe/src/metadata/cargo_resolver.rs, together with proofs of the
behavioural claims made by the specification.  Packages, dependency edges and
resolution state are translated structure-by-structure; BTreeMap/BTreeSet
containers are modelled as association lists / duplicate-free lists with the
same insert/lookup semantics; panics (unwrap, RefCell borrow errors, map
indexing) are modelled as an explicit error monad.  External crates
(semver, cfg-expr, cargo-platform) are modelled from the specification,
as noted on the corresponding definitions.
-/

set_option autoImplicit false

/-- Identifier type for packages (cargo_metadata::PackageId, an opaque stable string). -/
abbrev PkgId := String

/-- Location of a resolution-state entry (source enum Location). -/
inductive Location where
  | target
  | host
deriving DecidableEq, Repr

/-- Dependency kind (source enum DependencyKind). -/
inductive DependencyKind where
  | normal
  | development
  | build
deriving DecidableEq, Repr

/-- Modelled from the spec: a platform predicate attached to a dependency edge
(cargo_platform::Platform), either a cfg(...) expression - stored here as the
inner expression string - or a literal triple name. -/
inductive Platform where
  | cfg (expr : String)
  | name (triple : String)
deriving DecidableEq, Repr

/-- String rendering of a platform predicate, as produced by the Display
implementation of cargo_platform::Platform (Cfg prints as cfg(expr)). -/
def platformToString : Platform → String
  | .cfg e => "cfg(" ++ e ++ ")"
  | .name t => t

/-- Modelled from the spec: a predicate inside a parsed cfg expression
(cfg_expr::Predicate): either a target predicate or some other predicate. -/
inductive CfgPred where
  | target (p : String)
  | other (p : String)
deriving DecidableEq, Repr

/-- Modelled from the spec: a parsed cfg(...) expression from the external
cfg-expr crate, abstracted to predicates and boolean connectives. -/
inductive CfgExpr where
  | pred (p : CfgPred)
  | neg (e : CfgExpr)
  | conj (a b : CfgExpr)
  | disj (a b : CfgExpr)
deriving DecidableEq, Repr

/-- Evaluation of a parsed cfg expression against a predicate valuation
(cfg_expr::Expression::eval). -/
def CfgExpr.eval : CfgExpr → (CfgPred → Bool) → Bool
  | .pred p, m => m p
  | .neg e, m => !(e.eval m)
  | .conj a b, m => a.eval m && b.eval m
  | .disj a b, m => a.eval m || b.eval m

/-- Modelled from the spec: a target-info record of the platform oracle
(cfg_expr::targets::TargetInfo): the literal triple plus a matcher callable
answering target predicates. -/
structure TargetInfo where
  triple : String
  matchesPred : String → Bool

/-- Target kinds of a cargo build target (cargo_metadata::TargetKind), reduced
to the constructors the resolver inspects plus a catch-all. -/
inductive TargetKind where
  | lib
  | rlib
  | dylib
  | cdylib
  | staticlib
  | procMacro
  | bin
  | custom
deriving DecidableEq, Repr

/-- A declared build target of a package: a name and a set of kinds. -/
structure PkgTarget where
  name : String
  kind : List TargetKind
deriving DecidableEq, Repr

/-- Lowercase an ASCII uppercase letter, leave any other character unchanged
(the character-level behaviour of Rust ASCII case folding). -/
def asciiLower (c : Char) : Char :=
  if 'A' ≤ c ∧ c ≤ 'Z' then Char.ofNat (c.toNat + 32) else c

/-- ASCII-case-insensitive string equality (str::eq_ignore_ascii_case). -/
def eqIgnoreAsciiCase (a b : String) : Bool :=
  a.data.map asciiLower == b.data.map asciiLower

/-- Drop a literal character-list pre from the front of a list, or fail. -/
def dropPreChars : List Char → List Char → Option (List Char)
  | [], s => some s
  | _ :: _, [] => none
  | p :: ps, c :: cs => if p = c then dropPreChars ps cs else none

/-- Whether the string s starts with the string pre (str::starts_with). -/
def strStartsWith (s pre : String) : Bool :=
  (dropPreChars pre.data s.data).isSome

/-- Drop the literal pre from the front of s (str::strip_prefix). -/
def stripPre (pre s : String) : Option String :=
  (dropPreChars pre.data s.data).map String.mk

/-- Split a character list at the first slash (the list-level part of
str::split_once). -/
def splitSlashChars : List Char → Option (List Char × List Char)
  | [] => none
  | c :: cs =>
    if c = '/' then some ([], cs)
    else (splitSlashChars cs).map (fun ab => (c :: ab.1, ab.2))

/-- Split a string at the first slash (str::split_once with a slash). -/
def splitOnceSlash (s : String) : Option (String × String) :=
  (splitSlashChars s.data).map (fun ab => (String.mk ab.1, String.mk ab.2))

/-- Remove a trailing question mark (str::strip_suffix with a question mark). -/
def stripSuffQ (s : String) : Option String :=
  match s.data.reverse with
  | [] => none
  | c :: rest => if c = '?' then some (String.mk rest.reverse) else none

/-- Lookup in an association list, first matching key (BTreeMap::get). -/
def alGet {κ ν : Type} [DecidableEq κ] : List (κ × ν) → κ → Option ν
  | [], _ => none
  | (k', v) :: rest, k => if k' = k then some v else alGet rest k

/-- Update or insert a binding in an association list (BTreeMap::insert /
entry().or_default() followed by a write; position of an existing key is kept). -/
def alSet {κ ν : Type} [DecidableEq κ] : List (κ × ν) → κ → ν → List (κ × ν)
  | [], k, v => [(k, v)]
  | (k', v') :: rest, k, v =>
    if k' = k then (k, v) :: rest else (k', v') :: alSet rest k v

/-- Insert an element into a duplicate-free list acting as a set
(BTreeSet::insert); no change when already present. -/
def listInsert {α : Type} [DecidableEq α] (xs : List α) (a : α) : List α :=
  if a ∈ xs then xs else xs ++ [a]

/-- Extend a set-list with the elements of another list (Extend::extend on a
BTreeSet). -/
def listExtend {α : Type} [DecidableEq α] (xs ys : List α) : List α :=
  ys.foldl listInsert xs

/-- Whether an association list has a binding for the key
(BTreeMap::contains_key). -/
def hasKey {κ ν : Type} [DecidableEq κ] (l : List (κ × ν)) (k : κ) : Bool :=
  (alGet l k).isSome

/-- Modelled from the spec: a semver version from the external semver crate,
reduced to a linearly ordered numeric core plus a pre-release flag (a
pre-release version orders below the corresponding release and is not matched
by a requirement without a comparator that allows it). -/
structure Version where
  num : Nat
  pre : Bool
deriving DecidableEq, Repr

/-- Ascending order on versions used when sorting a name group
(sort_by_key over the semver Ord instance): by numeric core, a pre-release
below the corresponding release. -/
def versionLe (a b : Version) : Bool :=
  a.num < b.num || (a.num = b.num && (a.pre || !b.pre))

/-- Modelled from the spec: one comparator of a semver version requirement. -/
inductive Comparator where
  | ge (n : Nat)
  | le (n : Nat)
  | exact (n : Nat)
  | exactPre (n : Nat)
deriving DecidableEq, Repr

/-- Whether one comparator accepts the numeric core of a version. -/
def Comparator.matchesNum : Comparator → Nat → Bool
  | .ge n, v => n ≤ v
  | .le n, v => v ≤ n
  | .exact n, v => v = n
  | .exactPre n, v => v = n

/-- Whether a comparator explicitly allows the pre-release of this version. -/
def Comparator.allowsPre : Comparator → Nat → Bool
  | .exactPre n, v => v = n
  | _, _ => false

/-- Modelled from the spec: a semver version requirement is a list of
comparators. -/
structure VersionReq where
  comparators : List Comparator
deriving DecidableEq, Repr

/-- Modelled from the spec: requirement matching of the external semver crate -
every comparator must accept the version, and a pre-release version is matched
only when some comparator explicitly allows its pre-release.  In particular a
requirement with no comparators matches every release version and no
pre-release version. -/
def VersionReq.matches (req : VersionReq) (v : Version) : Bool :=
  req.comparators.all (fun c => c.matchesNum v.num) &&
    (!v.pre || req.comparators.any (fun c => c.allowsPre v.num))

/-- A declared dependency of a package as delivered by the metadata snapshot
(cargo_metadata::Dependency, the fields the resolver reads). -/
structure RawDependency where
  name : String
  rename : Option String
  kind : DependencyKind
  optional : Bool
  usesDefaultFeatures : Bool
  features : List String
  target : Option Platform
  req : VersionReq
  source : Option String
deriving DecidableEq, Repr

/-- A package record of the metadata snapshot (cargo_metadata::Package, the
fields the resolver reads; source is the repr string of the Source). -/
structure Package where
  id : PkgId
  name : String
  version : Version
  features : List (String × List String)
  dependencies : List RawDependency
  targets : List PkgTarget
  links : Option String
  source : Option String
deriving DecidableEq, Repr

/-- The metadata snapshot consumed by the resolver
(cargo_metadata::Metadata, the fields the resolver reads). -/
structure Metadata where
  packages : List Package
  workspaceMembers : List PkgId
deriving DecidableEq, Repr

/-- Modelled from the spec: CrateId (from the config module, outside the
resolver source): the stable crate identifier derived from a package,
rendered as the package name followed by its version. -/
def crateIdFrom (p : Package) : String :=
  p.name ++ " " ++ toString p.version.num ++ (if p.version.pre then "-pre" else "")

/-- Stable ascending sort of a name group by version (sort_by_key in
CargoResolver::new; any stable sort computes the same list, and insertion
sort keeps the model kernel-computable). -/
def sortByVersion (ps : List Package) : List Package :=
  List.insertionSort (fun a b => versionLe a.version b.version = true) ps

/-- The name group of a package name (into_group_map_by in CargoResolver::new,
read back through get: the packages with that name, in input order). -/
def packagesByName (packages : List Package) (name : String) : List Package :=
  packages.filter (fun p => p.name = name)

/-- The version part of the candidate test in CargoResolver::new: the
requirement matches the candidate version, or the requirement has no
comparators and the source of the edge starts with the git scheme. -/
def versionGate (dep : RawDependency) (pkg : Package) : Bool :=
  dep.req.matches pkg.version ||
    (dep.req.comparators.isEmpty &&
      (match dep.source with
       | some s => strStartsWith s "git+"
       | none => false))

/-- The source-correspondence part of the candidate test in
CargoResolver::new: both sourceless, or the source repr of the candidate
starts with the source of the edge. -/
def sourceOk (dep : RawDependency) (pkg : Package) : Bool :=
  match pkg.source, dep.source with
  | none, none => true
  | some repr, some depSrc => strStartsWith repr depSrc
  | _, _ => false

/-- The whole candidate test of the find closure in CargoResolver::new. -/
def depMatchPred (dep : RawDependency) (pkg : Package) : Bool :=
  if versionGate dep pkg then sourceOk dep pkg else false

/-- Selection of the concrete package for one declared dependency edge
(the find inside CargoResolver::new): iterate the name group in descending
version order and take the first candidate that passes the version gate and
whose source corresponds to the source of the edge. -/
def depCandidate (packages : List Package) (dep : RawDependency) : Option Package :=
  (sortByVersion (packagesByName packages dep.name)).reverse.find? (depMatchPred dep)

/-- A dependency edge retained by the resolver (source struct ResolveDep). -/
structure ResolveDep where
  id : PkgId
  name : String
  isAlias : Bool
  features : List String
  optional : Bool
  useDefaultFeatues : Bool
  target : Option Platform
  kind : DependencyKind
deriving DecidableEq, Repr

/-- Translation of one raw dependency edge during construction (the filter_map
closure in CargoResolver::new): development edges of non-members are dropped,
unmatched edges are dropped, matched edges become a ResolveDep. -/
def resolveOneDep (packages : List Package) (isWorkspaceMember : Bool)
    (dep : RawDependency) : Option ResolveDep :=
  if dep.kind = .development ∧ ¬ isWorkspaceMember then none
  else
    match depCandidate packages dep with
    | none => none
    | some matched =>
      some {
        id := matched.id
        name := dep.rename.getD dep.name
        isAlias := dep.rename.isSome
        kind := dep.kind
        target := dep.target
        features := dep.features
        optional := dep.optional
        useDefaultFeatues := dep.usesDefaultFeatures }

/-- One iteration step of the transitive-feature-closure loop in
CargoResolver::new, driven by explicit fuel (the Rust loop pops a work stack
until empty; the fuel chosen below is always sufficient). -/
def flattenLoop (declared : List (String × List String)) :
    Nat → List String → List String → List String
  | 0, flat, _ => flat
  | _ + 1, flat, [] => flat
  | fuel + 1, flat, feat :: stack =>
    match alGet declared feat with
    | none => flattenLoop declared fuel flat stack
    | some rhs =>
      if feat ∈ flat then flattenLoop declared fuel flat stack
      else flattenLoop declared fuel (flat ++ [feat]) (stack ++ rhs)

/-- Transitive feature closure of one declared feature (the closure computation
in CargoResolver::new): start from the feature itself and repeatedly expand
right-hand-side names that are themselves declared features. -/
def flattenOne (declared : List (String × List String)) (feature : String)
    (rhs : List String) : List String :=
  flattenLoop declared
    (rhs.length + (declared.map (fun kv => kv.2.length)).sum + 1) [feature] rhs

/-- Precomputed view of one package (source struct PackageWithDeps). -/
structure PackageWithDeps where
  package : Package
  flattenedFeatures : List (String × List String)
  isProcMacro : Bool
  libraryTargetName : Option String
  deps : List ResolveDep
deriving DecidableEq, Repr

/-- The resolver after construction (source struct CargoResolver). -/
structure CargoResolver where
  workspaceMembers : List PkgId
  dependencyResolve : List (PkgId × PackageWithDeps)
deriving DecidableEq, Repr

/-- Construction of the resolver from a metadata snapshot
(CargoResolver::new). -/
def CargoResolver.new (metadata : Metadata) : CargoResolver :=
  { workspaceMembers :=
      metadata.packages.filterMap (fun p =>
        if p.id ∈ metadata.workspaceMembers then some p.id else none)
    dependencyResolve :=
      metadata.packages.map (fun package =>
        (package.id,
          { package := package
            deps := package.dependencies.filterMap
              (resolveOneDep metadata.packages (package.id ∈ metadata.workspaceMembers))
            isProcMacro := package.targets.any (fun t => t.kind.any (· = .procMacro))
            flattenedFeatures := package.features.map (fun fr =>
              (fr.1, flattenOne package.features fr.1 fr.2))
            libraryTargetName := (package.targets.find? (fun t =>
              t.kind.any (fun k =>
                k = .cdylib ∨ k = .dylib ∨ k = .lib ∨ k = .procMacro ∨
                  k = .rlib ∨ k = .staticlib))).map (fun t => t.name) })) }

/-- An entry of the enabled-deps mapping (source enum FeatureDep). -/
inductive FeatureDep where
  | feature (name : String) (optional : Bool)
  | enabled
deriving DecidableEq, Repr

/-- Classification of one feature right-hand-side string (the filter_map
closure building enabled_deps in CargoResolver::resolve): dep:name yields
Enabled, name/feature and name?/feature yield Feature entries, anything else
is not a dependency reference. -/
def parseFeatureDep (feature : String) : Option (String × FeatureDep) :=
  match stripPre "dep:" feature with
  | some dep => some (dep, .enabled)
  | none =>
    match splitOnceSlash feature with
    | some (dep, feat) =>
      match stripSuffQ dep with
      | some dep' => some (dep', .feature feat true)
      | none => some (dep, .feature feat false)
    | none => none

/-- Grouping of dependency references by dependency name into sets
(into_grouping_map().collect::<BTreeSet<_>>() in CargoResolver::resolve). -/
def groupFeatureDeps (xs : List (String × FeatureDep)) :
    List (String × List FeatureDep) :=
  xs.foldl (fun acc kv => alSet acc kv.1 (listInsert ((alGet acc kv.1).getD []) kv.2)) []

/-- The enabled-deps mapping of a package for a flattened feature set
(CargoResolver::resolve, step building enabled_deps). -/
def enabledDepsOf (pkg : Package) (flattened : List String) :
    List (String × List FeatureDep) :=
  groupFeatureDeps
    (((flattened.filterMap (alGet pkg.features)).flatten).filterMap parseFeatureDep)

/-- Location assigned to the destination of a dependency edge
(the dep_location match in CargoResolver::resolve): an edge moves to Host
exactly when its source is at Target and the edge is a build edge or the
destination is a proc macro; otherwise it stays at the location of its
source. -/
def depLocation (location : Location) (kind : DependencyKind)
    (dstProcMacro : Bool) : Location :=
  match location with
  | .target => if kind = .build ∨ dstProcMacro = true then .host else .target
  | .host => .host

/-- Failure modes of a resolve run; each corresponds to a panic site of the
source (Expression::parse(..).unwrap(), BTreeMap indexing,
Option::unwrap on the library target name, RefCell borrow conflict). -/
inductive ResolveError where
  | badCfg (expr : String)
  | unknownPackage (id : PkgId)
  | unwrapNone
  | alreadyBorrowed
deriving DecidableEq, Repr

/-- Record of a resolved dependency inside a resolution-state entry
(source struct DepBorrow). -/
structure DepBorrow where
  target : List Platform
  features : List String
  aliasesOptional : List (Option String × Bool)
deriving DecidableEq, Repr

/-- The empty dependency record (Default for DepBorrow). -/
def DepBorrow.empty : DepBorrow := ⟨[], [], []⟩

/-- Key of a dependency record: destination, location, kind. -/
structure DepKey where
  id : PkgId
  loc : Location
  kind : DependencyKind
deriving DecidableEq, Repr

/-- One resolution-state entry (source struct ResolvedPackageBorrow). -/
structure ResolvedPackageBorrow where
  features : List String
  deps : List (DepKey × DepBorrow)
deriving DecidableEq, Repr

/-- The empty resolution-state entry (Default for ResolvedPackageBorrow). -/
def ResolvedPackageBorrow.empty : ResolvedPackageBorrow := ⟨[], []⟩

/-- The resolution-state map of one resolve run (source alias
ResolvedPackageMap). -/
abbrev ResolvedPackageMap := List ((PkgId × Location) × ResolvedPackageBorrow)

/-- A work-list entry of the fixed-point loop: package, location, and the
newly requested feature list. -/
abbrev StackEntry := PkgId × Location × List String

/-- Admission of a single dependency edge (the filter_map closure building
activated_deps in CargoResolver::resolve): location policy, then platform
gate, then optional-activation gate.  A cfg expression that fails to parse is
fatal. -/
def edgeAdmit (r : CargoResolver) (parseCfg : String → Option CfgExpr)
    (host target : TargetInfo) (location : Location)
    (enabledDeps : List (String × List FeatureDep)) (dep : ResolveDep) :
    Except ResolveError (Option (ResolveDep × Location)) :=
  let depLocE : Except ResolveError Location :=
    match location, dep.kind with
    | .host, _ => .ok .host
    | .target, .build => .ok .host
    | .target, k =>
      match alGet r.dependencyResolve dep.id with
      | none => .error (.unknownPackage dep.id)
      | some dst => .ok (depLocation .target k dst.isProcMacro)
  match depLocE with
  | .error e => .error e
  | .ok depLoc =>
    let gateE : Except ResolveError Bool :=
      match dep.target with
      | none => .ok true
      | some pl =>
        let info := match depLoc with
          | .host => host
          | .target => target
        match pl with
        | .cfg s =>
          match parseCfg s with
          | none => .error (.badCfg s)
          | some e =>
            .ok (e.eval (fun p =>
              match p with
              | .target tp => info.matchesPred tp
              | .other _ => false))
        | .name n => .ok (eqIgnoreAsciiCase info.triple n)
    match gateE with
    | .error e => .error e
    | .ok false => .ok none
    | .ok true =>
      if dep.optional then
        if ((alGet enabledDeps dep.name).getD []).any (fun o =>
            match o with
            | .enabled => true
            | .feature _ false => true
            | _ => false)
        then .ok (some (dep, depLoc))
        else .ok none
      else .ok (some (dep, depLoc))

/-- Admission of a whole edge list, in order (consumption of the
activated_deps iterator in CargoResolver::resolve). -/
def collectAdmitted (r : CargoResolver) (parseCfg : String → Option CfgExpr)
    (host target : TargetInfo) (location : Location)
    (enabledDeps : List (String × List FeatureDep)) :
    List ResolveDep → Except ResolveError (List (ResolveDep × Location))
  | [] => .ok []
  | dep :: rest =>
    match edgeAdmit r parseCfg host target location enabledDeps dep with
    | .error e => .error e
    | .ok none => collectAdmitted r parseCfg host target location enabledDeps rest
    | .ok (some x) =>
      match collectAdmitted r parseCfg host target location enabledDeps rest with
      | .error e => .error e
      | .ok l => .ok (x :: l)

/-- State update for one admitted dependency edge (the body of the for loop
over activated_deps in CargoResolver::resolve): upsert the dep record, extend
its platform set, record the alias/optional pair, add default when requested
and declared, and extend its features with the explicitly requested features
and all Feature entries of enabled_deps. -/
def applyDep (r : CargoResolver) (enabledDeps : List (String × List FeatureDep))
    (st : ResolvedPackageBorrow) (dep : ResolveDep) (depLoc : Location) :
    Except ResolveError ResolvedPackageBorrow :=
  match alGet r.dependencyResolve dep.id with
  | none => .error (.unknownPackage dep.id)
  | some depPkg =>
    let shouldDefault := dep.useDefaultFeatues && hasKey depPkg.package.features "default"
    let key : DepKey := ⟨dep.id, depLoc, dep.kind⟩
    let rec0 := (alGet st.deps key).getD DepBorrow.empty
    let target1 :=
      match dep.target with
      | some p => listInsert rec0.target p
      | none => rec0.target
    let rec1 := { rec0 with target := target1 }
    let aliasEntry := ((if dep.isAlias then some dep.name else none), dep.optional)
    let rec2 := { rec1 with aliasesOptional := listInsert rec1.aliasesOptional aliasEntry }
    let rec3 :=
      if shouldDefault then { rec2 with features := listInsert rec2.features "default" }
      else rec2
    let enabledNames := ((alGet enabledDeps dep.name).getD []).filterMap (fun f =>
      match f with
      | .feature n _ => some n
      | .enabled => none)
    let rec4 := { rec3 with features := listExtend rec3.features (dep.features ++ enabledNames) }
    .ok { st with deps := alSet st.deps key rec4 }

/-- Decision whether to enqueue the destination of an updated dep record
(the is_none_or push check in CargoResolver::resolve). -/
def pushFor (resolved : ResolvedPackageMap) (depId : PkgId) (depLoc : Location)
    (recFeatures : List String) : Option StackEntry :=
  match alGet resolved (depId, depLoc) with
  | none => some (depId, depLoc, recFeatures)
  | some pkg =>
    if recFeatures.any (fun f => decide (¬ f ∈ pkg.features))
    then some (depId, depLoc, recFeatures)
    else none

/-- Processing of the admitted edges of one popped entry, threading the
resolution-state entry of the popped package and collecting pushes
(the for loop over activated_deps in CargoResolver::resolve).  Reading the
entry that is currently mutably borrowed reproduces the RefCell panic. -/
def processDeps (r : CargoResolver) (enabledDeps : List (String × List FeatureDep))
    (id : PkgId) (location : Location) (resolved : ResolvedPackageMap) :
    List (ResolveDep × Location) → ResolvedPackageBorrow → List StackEntry →
    Except ResolveError (ResolvedPackageBorrow × List StackEntry)
  | [], st, pushes => .ok (st, pushes)
  | (dep, depLoc) :: rest, st, pushes =>
    match applyDep r enabledDeps st dep depLoc with
    | .error e => .error e
    | .ok st' =>
      if (dep.id, depLoc) = (id, location) then .error .alreadyBorrowed
      else
        let recFeatures := ((alGet st'.deps ⟨dep.id, depLoc, dep.kind⟩).getD DepBorrow.empty).features
        match pushFor resolved dep.id depLoc recFeatures with
        | some entry => processDeps r enabledDeps id location resolved rest st' (pushes ++ [entry])
        | none => processDeps r enabledDeps id location resolved rest st' pushes

/-- Worker of the feature-insertion loop: thread the growing set and the
novelty flag through the flattened feature list. -/
def insertFeatsGo : List String → Bool → List String → List String × Bool
  | fs, ch, [] => (fs, ch)
  | fs, ch, f :: rest =>
    if f ∈ fs then insertFeatsGo fs ch rest
    else insertFeatsGo (fs ++ [f]) true rest

/-- Insertion of a flattened feature list into a feature set, tracking whether
any insertion was novel (the any_changed insertion loop in
CargoResolver::resolve). -/
def insertFeats (fs : List String) (flattened : List String) : List String × Bool :=
  insertFeatsGo fs false flattened

/-- One iteration of the fixed-point loop of CargoResolver::resolve: pop an
entry, flatten its requested features, install them, and - when anything
changed - admit and process the outgoing edges. -/
def resolveStep (r : CargoResolver) (parseCfg : String → Option CfgExpr)
    (host target : TargetInfo) (resolved : ResolvedPackageMap)
    (id : PkgId) (location : Location) (features : List String) :
    Except ResolveError (ResolvedPackageMap × List StackEntry) :=
  match alGet r.dependencyResolve id with
  | none => .error (.unknownPackage id)
  | some pkg =>
    let flattened := (features.filterMap (alGet pkg.flattenedFeatures)).flatten
    let existed := hasKey resolved (id, location)
    let inserted := insertFeats ((alGet resolved (id, location)).getD ResolvedPackageBorrow.empty).features flattened
    let anyChanged := !existed || inserted.2
    let st1 : ResolvedPackageBorrow :=
      { ((alGet resolved (id, location)).getD ResolvedPackageBorrow.empty) with features := inserted.1 }
    let resolved1 := alSet resolved (id, location) st1
    if !anyChanged then .ok (resolved1, [])
    else
      let enabledDeps := enabledDepsOf pkg.package flattened
      match collectAdmitted r parseCfg host target location enabledDeps pkg.deps with
      | .error e => .error e
      | .ok admitted =>
        match processDeps r enabledDeps id location resolved1 admitted st1 [] with
        | .error e => .error e
        | .ok (st2, pushes) => .ok (alSet resolved1 (id, location) st2, pushes)

/-- The fixed-point loop of CargoResolver::resolve, driven by explicit fuel;
none signals exhausted fuel (the Rust loop runs until the stack drains). -/
def resolveLoop (r : CargoResolver) (parseCfg : String → Option CfgExpr)
    (host target : TargetInfo) :
    Nat → ResolvedPackageMap → List StackEntry →
    Option (Except ResolveError ResolvedPackageMap)
  | _, resolved, [] => some (.ok resolved)
  | 0, _, _ :: _ => none
  | fuel + 1, resolved, (id, location, features) :: rest =>
    match resolveStep r parseCfg host target resolved id location features with
    | .error e => some (.error e)
    | .ok (resolved', pushes) =>
      resolveLoop r parseCfg host target fuel resolved' (pushes.reverse ++ rest)

/-- The initial work list of a resolve run: every workspace member at Target
with all its declared features (the seeding of the stack in
CargoResolver::resolve). -/
def initialStack (r : CargoResolver) : Except ResolveError (List StackEntry) :=
  r.workspaceMembers.foldr (fun id acc =>
    match acc with
    | .error e => .error e
    | .ok l =>
      match alGet r.dependencyResolve id with
      | none => .error (.unknownPackage id)
      | some pkg => .ok ((id, Location.target, pkg.package.features.map (fun kv => kv.1)) :: l))
    (.ok [])

/-- A full fixed-point run of CargoResolver::resolve from the seeded stack
(the Rust stack is popped from the end, hence the reversal). -/
def runResolveLoop (r : CargoResolver) (parseCfg : String → Option CfgExpr)
    (host target : TargetInfo) (fuel : Nat) :
    Option (Except ResolveError ResolvedPackageMap) :=
  match initialStack r with
  | .error e => some (.error e)
  | .ok seeds => resolveLoop r parseCfg host target fuel [] seeds.reverse

/-- An externally visible crate dependency (source struct Dependency). -/
structure Dependency where
  id : String
  targetName : String
  aliasOpt : Option String
  features : List String
  optional : Bool
deriving DecidableEq, Repr

/-- Externally visible annotation of one crate (source struct
CrateAnnotation). -/
structure CrateAnnotation where
  features : List String
  deps : List Dependency
  depsDev : List Dependency
  procMacroDeps : List Dependency
  procMacroDepsDev : List Dependency
  buildDeps : List Dependency
  buildProcMacroDeps : List Dependency
  buildLinkDeps : List Dependency
deriving DecidableEq, Repr

/-- The empty crate annotation (Default for CrateAnnotation). -/
def CrateAnnotation.empty : CrateAnnotation := ⟨[], [], [], [], [], [], [], []⟩

/-- Emptiness of a crate annotation (CrateAnnotation::is_empty). -/
def CrateAnnotation.isEmpty (a : CrateAnnotation) : Bool :=
  a.features.isEmpty && a.deps.isEmpty && a.depsDev.isEmpty &&
    a.procMacroDeps.isEmpty && a.procMacroDepsDev.isEmpty && a.buildDeps.isEmpty &&
    a.buildProcMacroDeps.isEmpty && a.buildLinkDeps.isEmpty

/-- Field-wise set union of two crate annotations (CrateAnnotation::merge). -/
def CrateAnnotation.merge (a b : CrateAnnotation) : CrateAnnotation :=
  { features := listExtend a.features b.features
    deps := listExtend a.deps b.deps
    depsDev := listExtend a.depsDev b.depsDev
    procMacroDeps := listExtend a.procMacroDeps b.procMacroDeps
    procMacroDepsDev := listExtend a.procMacroDepsDev b.procMacroDepsDev
    buildDeps := listExtend a.buildDeps b.buildDeps
    buildProcMacroDeps := listExtend a.buildProcMacroDeps b.buildProcMacroDeps
    buildLinkDeps := listExtend a.buildLinkDeps b.buildLinkDeps }

/-- Field-wise set difference of two crate annotations (CrateAnnotation::diff). -/
def CrateAnnotation.diff (a other : CrateAnnotation) : CrateAnnotation :=
  { features := a.features.filter (fun v => decide (¬ v ∈ other.features))
    deps := a.deps.filter (fun v => decide (¬ v ∈ other.deps))
    depsDev := a.depsDev.filter (fun v => decide (¬ v ∈ other.depsDev))
    procMacroDeps := a.procMacroDeps.filter (fun v => decide (¬ v ∈ other.procMacroDeps))
    procMacroDepsDev := a.procMacroDepsDev.filter (fun v => decide (¬ v ∈ other.procMacroDepsDev))
    buildDeps := a.buildDeps.filter (fun v => decide (¬ v ∈ other.buildDeps))
    buildProcMacroDeps := a.buildProcMacroDeps.filter (fun v => decide (¬ v ∈ other.buildProcMacroDeps))
    buildLinkDeps := a.buildLinkDeps.filter (fun v => decide (¬ v ∈ other.buildLinkDeps)) }

/-- Field-wise set intersection of two crate annotations
(CrateAnnotation::intersect). -/
def CrateAnnotation.intersect (a other : CrateAnnotation) : CrateAnnotation :=
  { features := a.features.filter (fun v => decide (v ∈ other.features))
    deps := a.deps.filter (fun v => decide (v ∈ other.deps))
    depsDev := a.depsDev.filter (fun v => decide (v ∈ other.depsDev))
    procMacroDeps := a.procMacroDeps.filter (fun v => decide (v ∈ other.procMacroDeps))
    procMacroDepsDev := a.procMacroDepsDev.filter (fun v => decide (v ∈ other.procMacroDepsDev))
    buildDeps := a.buildDeps.filter (fun v => decide (v ∈ other.buildDeps))
    buildProcMacroDeps := a.buildProcMacroDeps.filter (fun v => decide (v ∈ other.buildProcMacroDeps))
    buildLinkDeps := a.buildLinkDeps.filter (fun v => decide (v ∈ other.buildLinkDeps)) }

/-- Construction of one emitted Dependency value (the struct literal inside
the annotation loop of CargoResolver::resolve); the library target name of the
destination is unwrapped, so a destination without a library target is a
panic, modelled as an error. -/
def mkDependency (depPkg : PackageWithDeps) (aliasOpt : Option String)
    (features : List String) (optional : Bool) : Except ResolveError Dependency :=
  match depPkg.libraryTargetName with
  | none => .error .unwrapNone
  | some tn =>
    .ok { id := crateIdFrom depPkg.package
          targetName := tn
          aliasOpt := aliasOpt
          features := features
          optional := optional }

/-- Insertion of one emitted dependency into its output buckets (the push_data
closure in CargoResolver::resolve): a normal non-proc-macro dependency whose
package has a links name also goes into build_link_deps, then the dependency
is classified by kind and proc-macro flag. -/
def pushData (kind : DependencyKind) (depPkg : PackageWithDeps)
    (ann : CrateAnnotation) (dep : Dependency) : CrateAnnotation :=
  let ann :=
    if kind = .normal ∧ depPkg.isProcMacro = false ∧ depPkg.package.links.isSome
    then { ann with buildLinkDeps := listInsert ann.buildLinkDeps dep }
    else ann
  match kind, depPkg.isProcMacro with
  | .normal, true => { ann with procMacroDeps := listInsert ann.procMacroDeps dep }
  | .normal, false => { ann with deps := listInsert ann.deps dep }
  | .development, true => { ann with procMacroDepsDev := listInsert ann.procMacroDepsDev dep }
  | .development, false => { ann with depsDev := listInsert ann.depsDev dep }
  | .build, true => { ann with buildProcMacroDeps := listInsert ann.buildProcMacroDeps dep }
  | .build, false => { ann with buildDeps := listInsert ann.buildDeps dep }

/-- Output mapping of a resolve run: crate identifier to configuration key to
crate annotation (the data argument of CargoResolver::resolve). -/
abbrev AnnData := List (String × List (String × CrateAnnotation))

/-- Update of one annotation cell of the output mapping
(nested entry().or_default() access in CargoResolver::resolve). -/
def annUpdate (data : AnnData) (cid key : String)
    (f : CrateAnnotation → CrateAnnotation) : AnnData :=
  let m := (alGet data cid).getD []
  let ann := (alGet m key).getD CrateAnnotation.empty
  alSet data cid (alSet m key (f ann))

/-- Features with which a workspace member is referenced by its dependents:
scan every other resolution-state entry at Target and union the feature sets
of dep records keyed by this member at Target, over all kinds (the member
branch of the annotation loop in CargoResolver::resolve). -/
def memberFeatureSources (resolved : ResolvedPackageMap) (id : PkgId) : List String :=
  resolved.foldl (fun acc entry =>
    if entry.1.2 ≠ Location.target ∨ entry.1.1 = id then acc
    else
      acc ++ ((entry.2.deps.filter (fun kv =>
        kv.1.id = id ∧ kv.1.loc = Location.target)).map (fun kv => kv.2.features)).flatten) []

/-- Emission of the alias/optional facets of one dep record (the inner loop
over aliases_optional in the annotation phase of CargoResolver::resolve). -/
def annotateAliases (cid config : String) (key : DepKey) (depPkg : PackageWithDeps)
    (dep : DepBorrow) :
    List (Option String × Bool) → AnnData → Except ResolveError AnnData
  | [], data => .ok data
  | (aliasOpt, optional) :: rest, data =>
    match mkDependency depPkg aliasOpt dep.features optional with
    | .error e => .error e
    | .ok dependency =>
      let data' :=
        if dep.target.isEmpty then
          annUpdate data cid config (fun ann => pushData key.kind depPkg ann dependency)
        else
          dep.target.foldl (fun d p =>
            annUpdate d cid (platformToString p)
              (fun ann => pushData key.kind depPkg ann dependency)) data
      annotateAliases cid config key depPkg dep rest data'

/-- Emission of all dep records of one resolution-state entry (the loop over
package.deps in the annotation phase of CargoResolver::resolve). -/
def annotateDeps (r : CargoResolver) (cid config : String) :
    List (DepKey × DepBorrow) → AnnData → Except ResolveError AnnData
  | [], data => .ok data
  | (key, dep) :: rest, data =>
    match alGet r.dependencyResolve key.id with
    | none => .error (.unknownPackage key.id)
    | some depPkg =>
      match annotateAliases cid config key depPkg dep dep.aliasesOptional data with
      | .error e => .error e
      | .ok data' => annotateDeps r cid config rest data'

/-- Emission of one resolution-state entry: configuration key from the entry
location, features (member entries gather them from their dependents), then
the dep records (one iteration of the annotation loop of
CargoResolver::resolve). -/
def annotateEntry (r : CargoResolver) (host target : TargetInfo)
    (resolved : ResolvedPackageMap) (data : AnnData)
    (entry : (PkgId × Location) × ResolvedPackageBorrow) :
    Except ResolveError AnnData :=
  match alGet r.dependencyResolve entry.1.1 with
  | none => .error (.unknownPackage entry.1.1)
  | some pkgWD =>
    let config :=
      match entry.1.2 with
      | .host => host.triple
      | .target => target.triple
    let cid := crateIdFrom pkgWD.package
    let data1 := alSet data cid ((alGet data cid).getD [])
    let data2 :=
      if entry.1.1 ∈ r.workspaceMembers then
        (memberFeatureSources resolved entry.1.1).foldl (fun d f =>
          annUpdate d cid config (fun ann =>
            { ann with features := listInsert ann.features f })) data1
      else
        entry.2.features.foldl (fun d f =>
          annUpdate d cid config (fun ann =>
            { ann with features := listInsert ann.features f })) data1
    annotateDeps r cid config entry.2.deps data2

/-- Emission of a list of resolution-state entries in order. -/
def annotateAll (r : CargoResolver) (host target : TargetInfo)
    (resolved : ResolvedPackageMap) :
    List ((PkgId × Location) × ResolvedPackageBorrow) → AnnData →
    Except ResolveError AnnData
  | [], data => .ok data
  | e :: rest, data =>
    match annotateEntry r host target resolved data e with
    | .error err => .error err
    | .ok data' => annotateAll r host target resolved rest data'

/-- The annotation phase of CargoResolver::resolve: emit every
resolution-state entry into the output mapping. -/
def annotate (r : CargoResolver) (host target : TargetInfo)
    (resolved : ResolvedPackageMap) (data : AnnData) :
    Except ResolveError AnnData :=
  annotateAll r host target resolved resolved data

/-- A full resolve run for one (host, target) pair (CargoResolver::resolve):
fixed-point loop followed by the annotation phase; none means the chosen fuel
did not suffice to drain the work list. -/
def CargoResolver.resolve (r : CargoResolver) (parseCfg : String → Option CfgExpr)
    (host target : TargetInfo) (fuel : Nat) (data : AnnData) :
    Option (Except ResolveError AnnData) :=
  match runResolveLoop r parseCfg host target fuel with
  | none => none
  | some (.error e) => some (.error e)
  | some (.ok resolved) => some (annotate r host target resolved data)

/-- Modelled from the spec: a selectable value (Select of CrateAnnotation from
the select module, which is outside the resolver source): a common part plus
per-configuration residuals. -/
structure Select where
  common : CrateAnnotation
  selects : List (String × CrateAnnotation)
deriving DecidableEq, Repr

/-- Modelled from the spec: the empty selectable value (Select::new). -/
def Select.new : Select := ⟨ CrateAnnotation.empty, []⟩

/-- The retain pass shared by insert and optimize: subtract the common part
from every residual and drop residuals that become empty. -/
def retainDiffed (selects : List (String × CrateAnnotation))
    (common : CrateAnnotation) : List (String × CrateAnnotation) :=
  (selects.map (fun kv => (kv.1, kv.2.diff common))).filter (fun kv => !kv.2.isEmpty)

/-- Insertion into a selectable value (Selectable::insert for CrateAnnotation):
an empty value is ignored; a configured value merges into its residual, an
unconfigured value merges into common; then residuals are reduced against
common. -/
def Select.insertAnn (s : Select) (value : CrateAnnotation)
    (configuration : Option String) : Select :=
  if value.isEmpty then s
  else
    let s1 : Select :=
      match configuration with
      | some c =>
        let newVal :=
          match alGet s.selects c with
          | some o => o.merge value
          | none => value
        { s with selects := alSet s.selects c newVal }
      | none => { s with common := s.common.merge value }
    { s1 with selects := retainDiffed s1.selects s1.common }

/-- Fold of intersect over a list of residual values. -/
def selectsIntersection (seed : CrateAnnotation) (vs : List CrateAnnotation) :
    CrateAnnotation :=
  vs.foldl (fun acc v => acc.intersect v) seed

/-- The selectable-collapse optimisation (Selectable::optimize for
CrateAnnotation): intersect all residual values; if the intersection is not
empty, lift it into common and reduce the residuals against common. -/
def Select.optimizeAnn (s : Select) : Select :=
  match s.selects with
  | [] => s
  | (_, v0) :: rest =>
    let intersection := selectsIntersection v0 (rest.map (fun kv => kv.2))
    if intersection.isEmpty then s
    else
      let common := s.common.merge intersection
      { common := common, selects := retainDiffed s.selects common }

/-- Specification-side definition, used for comparison with the source: the
alias normalisation described by the specification, replacing every dash with
an underscore. -/
def specAliasNormalize (s : String) : String :=
  String.mk (s.data.map (fun c => if c = '-' then '_' else c))

/-- Reachability of a (package, location) pair from a workspace member along
dependency edges of the built resolver, following the location policy; the
boolean index records whether the path crosses at least one edge whose kind is
Build or whose destination is a proc macro. -/
inductive Reach (r : CargoResolver) : PkgId → Location → Bool → Prop where
  | member (id : PkgId) (h : id ∈ r.workspaceMembers) : Reach r id Location.target false
  | step (pid : PkgId) (ploc : Location) (b : Bool) (pkg : PackageWithDeps)
      (dep : ResolveDep) (dpkg : PackageWithDeps)
      (hre : Reach r pid ploc b)
      (hpkg : alGet r.dependencyResolve pid = some pkg)
      (hdep : dep ∈ pkg.deps)
      (hdst : alGet r.dependencyResolve dep.id = some dpkg) :
      Reach r dep.id (depLocation ploc dep.kind dpkg.isProcMacro)
        (b || (decide (dep.kind = DependencyKind.build) || dpkg.isProcMacro))

/-- Whether a finished resolve run contains a resolution-state entry for the
package at Host. -/
def hostResolvedProbe (res : Option (Except ResolveError ResolvedPackageMap))
    (id : PkgId) : Bool :=
  match res with
  | some (.ok final) => hasKey final (id, Location.host)
  | _ => false

/-- Membership of a feature in the resolution-state entry of a key. -/
def featureInResolved (resolved : ResolvedPackageMap) (k : PkgId × Location)
    (f : String) : Prop :=
  ∃ st, alGet resolved k = some st ∧ f ∈ st.features

/-- Executable check that every declared feature of every package of the
resolver has a flattened-closure entry containing the feature itself; this
holds for every resolver built by CargoResolver.new. -/
def selfContainedFlatB (r : CargoResolver) : Bool :=
  r.dependencyResolve.all (fun entry =>
    entry.2.package.features.all (fun fr =>
      match alGet entry.2.flattenedFeatures fr.1 with
      | some flat => decide (fr.1 ∈ flat)
      | none => false))

/-- Residual of a selectable value at a configuration, empty when absent. -/
def lookupOrEmpty (sel : List (String × CrateAnnotation)) (t : String) :
    CrateAnnotation :=
  (alGet sel t).getD CrateAnnotation.empty

/-- Field-wise set equivalence of two crate annotations. -/
def annEquiv (a b : CrateAnnotation) : Prop :=
  (∀ x, x ∈ a.features ↔ x ∈ b.features) ∧
  (∀ x, x ∈ a.deps ↔ x ∈ b.deps) ∧
  (∀ x, x ∈ a.depsDev ↔ x ∈ b.depsDev) ∧
  (∀ x, x ∈ a.procMacroDeps ↔ x ∈ b.procMacroDeps) ∧
  (∀ x, x ∈ a.procMacroDepsDev ↔ x ∈ b.procMacroDepsDev) ∧
  (∀ x, x ∈ a.buildDeps ↔ x ∈ b.buildDeps) ∧
  (∀ x, x ∈ a.buildProcMacroDeps ↔ x ∈ b.buildProcMacroDeps) ∧
  (∀ x, x ∈ a.buildLinkDeps ↔ x ∈ b.buildLinkDeps)

/-- The annotation cell of an output mapping at a crate and configuration. -/
def annAt (data : AnnData) (cid key : String) : CrateAnnotation :=
  (alGet ((alGet data cid).getD []) key).getD CrateAnnotation.empty

/-- Extraction of the output mapping of a successful resolve run. -/
def annOfRun (res : Option (Except ResolveError AnnData)) : AnnData :=
  match res with
  | some (.ok d) => d
  | _ => []

/-- A concrete cfg parser instantiating the external parser for the worked
examples: only the expression unix parses. -/
def parseCfgDemo : String → Option CfgExpr
  | "unix" => some (.pred (.target "unix"))
  | _ => none

/-- Host target-info record for the worked examples. -/
def hostInfoDemo : TargetInfo :=
  { triple := "x86_64-apple-darwin", matchesPred := fun p => decide (p = "unix") }

/-- Target target-info record for the worked examples. -/
def targetInfoDemo : TargetInfo :=
  { triple := "x86_64-unknown-linux-gnu", matchesPred := fun p => decide (p = "unix") }

/-- Example A, root package: a workspace member with a build dependency and a
normal default-features dependency. -/
def pkgRootA : Package :=
  { id := "root-id", name := "root", version := ⟨1, false⟩
    features := []
    dependencies :=
      [ { name := "bd", rename := none, kind := .build, optional := false
          usesDefaultFeatures := false, features := [], target := none
          req := ⟨[]⟩, source := none }
      , { name := "leaf", rename := none, kind := .normal, optional := false
          usesDefaultFeatures := true, features := [], target := none
          req := ⟨[]⟩, source := none } ]
    targets := [⟨"root", [.lib]⟩], links := none, source := none }

/-- Example A, build dependency package. -/
def pkgBdA : Package :=
  { id := "bd-id", name := "bd", version := ⟨1, false⟩
    features := [], dependencies := []
    targets := [⟨"bd", [.lib]⟩], links := none, source := none }

/-- Example A, normal dependency package declaring a default feature. -/
def pkgLeafA : Package :=
  { id := "leaf-id", name := "leaf", version := ⟨1, false⟩
    features := [("default", [])], dependencies := []
    targets := [⟨"leaf", [.lib]⟩], links := none, source := none }

/-- Example A metadata snapshot. -/
def metaDemoA : Metadata := ⟨[pkgRootA, pkgBdA, pkgLeafA], ["root-id"]⟩

/-- Example A resolver. -/
def resolverDemoA : CargoResolver := CargoResolver.new metaDemoA

/-- Example B, root package: a workspace member with a renamed dependency
whose rename contains a dash. -/
def pkgRootB : Package :=
  { id := "rootB-id", name := "rootB", version := ⟨1, false⟩
    features := []
    dependencies :=
      [ { name := "ren", rename := some "my-alias", kind := .normal
          optional := false, usesDefaultFeatures := false, features := []
          target := none, req := ⟨[]⟩, source := none } ]
    targets := [⟨"rootB", [.lib]⟩], links := none, source := none }

/-- Example B, the renamed dependency package. -/
def pkgRenB : Package :=
  { id := "ren-id", name := "ren", version := ⟨1, false⟩
    features := [], dependencies := []
    targets := [⟨"ren", [.lib]⟩], links := none, source := none }

/-- Example B metadata snapshot. -/
def metaDemoB : Metadata := ⟨[pkgRootB, pkgRenB], ["rootB-id"]⟩

/-- Example B resolver. -/
def resolverDemoB : CargoResolver := CargoResolver.new metaDemoB

/-- Example B annotation output. -/
def annDemoB : AnnData :=
  annOfRun (CargoResolver.resolve resolverDemoB parseCfgDemo hostInfoDemo targetInfoDemo 10 [])

/-- Example C, root package: a workspace member depending on a binary-only
package. -/
def pkgRootC : Package :=
  { id := "rootC-id", name := "rootC", version := ⟨1, false⟩
    features := []
    dependencies :=
      [ { name := "binonly", rename := none, kind := .normal, optional := false
          usesDefaultFeatures := false, features := [], target := none
          req := ⟨[]⟩, source := none } ]
    targets := [⟨"rootC", [.lib]⟩], links := none, source := none }

/-- Example C, a binary-only package (no library target). -/
def pkgBinC : Package :=
  { id := "binonly-id", name := "binonly", version := ⟨1, false⟩
    features := [], dependencies := []
    targets := [⟨"binonly", [.bin]⟩], links := none, source := none }

/-- Example C metadata snapshot. -/
def metaDemoC : Metadata := ⟨[pkgRootC, pkgBinC], ["rootC-id"]⟩

/-- Example C resolver. -/
def resolverDemoC : CargoResolver := CargoResolver.new metaDemoC

/-- Example D, low-version candidate whose source corresponds to the edge. -/
def pkgLowD : Package :=
  { id := "m1-id", name := "m", version := ⟨1, false⟩
    features := [], dependencies := []
    targets := [⟨"m", [.lib]⟩], links := none, source := some "registry+first" }

/-- Example D, high-version candidate whose source does not correspond. -/
def pkgHighD : Package :=
  { id := "m2-id", name := "m", version := ⟨2, false⟩
    features := [], dependencies := []
    targets := [⟨"m", [.lib]⟩], links := none, source := some "registry+second" }

/-- Example D candidate pool. -/
def packagesDemoD : List Package := [pkgLowD, pkgHighD]

/-- Example D dependency edge: the requirement is satisfied by both candidate
versions, the source corresponds only to the low-version candidate. -/
def depDemoD : RawDependency :=
  { name := "m", rename := none, kind := .normal, optional := false
    usesDefaultFeatures := false, features := [], target := none
    req := ⟨[.ge 1]⟩, source := some "registry+first" }

/-- Example E, root package: a workspace member with a cfg-gated dependency. -/
def pkgRootE : Package :=
  { id := "rootE-id", name := "rootE", version := ⟨1, false⟩
    features := []
    dependencies :=
      [ { name := "leafE", rename := none, kind := .normal, optional := false
          usesDefaultFeatures := false, features := [], target := some (.cfg "unix")
          req := ⟨[]⟩, source := none } ]
    targets := [⟨"rootE", [.lib]⟩], links := none, source := none }

/-- Example E, the cfg-gated dependency package. -/
def pkgLeafE : Package :=
  { id := "leafE-id", name := "leafE", version := ⟨1, false⟩
    features := [], dependencies := []
    targets := [⟨"leafE", [.lib]⟩], links := none, source := none }

/-- Example E metadata snapshot. -/
def metaDemoE : Metadata := ⟨[pkgRootE, pkgLeafE], ["rootE-id"]⟩

/-- Example E resolver. -/
def resolverDemoE : CargoResolver := CargoResolver.new metaDemoE

/-- Example E resolution state. -/
def resolvedDemoE : ResolvedPackageMap :=
  match runResolveLoop resolverDemoE parseCfgDemo hostInfoDemo targetInfoDemo 10 with
  | some (.ok final) => final
  | _ => []

/-- Example E annotation output. -/
def annDemoE : AnnData :=
  annOfRun (CargoResolver.resolve resolverDemoE parseCfgDemo hostInfoDemo targetInfoDemo 10 [])

/-- Example F (malformed cfg), first variant: the offending package is alpha
and the offending dependency is x. -/
def pkgRootFa : Package :=
  { id := "alpha-id", name := "alpha", version := ⟨1, false⟩
    features := []
    dependencies :=
      [ { name := "x", rename := none, kind := .normal, optional := false
          usesDefaultFeatures := false, features := [], target := some (.cfg "???")
          req := ⟨[]⟩, source := none } ]
    targets := [⟨"alpha", [.lib]⟩], links := none, source := none }

/-- Example F, first variant, the target of the offending edge. -/
def pkgLeafFa : Package :=
  { id := "x-id", name := "x", version := ⟨1, false⟩
    features := [], dependencies := []
    targets := [⟨"x", [.lib]⟩], links := none, source := none }

/-- Example F, second variant: the offending package is beta and the offending
dependency is y. -/
def pkgRootFb : Package :=
  { id := "beta-id", name := "beta", version := ⟨1, false⟩
    features := []
    dependencies :=
      [ { name := "y", rename := none, kind := .normal, optional := false
          usesDefaultFeatures := false, features := [], target := some (.cfg "???")
          req := ⟨[]⟩, source := none } ]
    targets := [⟨"beta", [.lib]⟩], links := none, source := none }

/-- Example F, second variant, the target of the offending edge. -/
def pkgLeafFb : Package :=
  { id := "y-id", name := "y", version := ⟨1, false⟩
    features := [], dependencies := []
    targets := [⟨"y", [.lib]⟩], links := none, source := none }

/-- Example F resolvers for both variants. -/
def resolverDemoFa : CargoResolver := CargoResolver.new ⟨[pkgRootFa, pkgLeafFa], ["alpha-id"]⟩

/-- Example F resolver, second variant. -/
def resolverDemoFb : CargoResolver := CargoResolver.new ⟨[pkgRootFb, pkgLeafFb], ["beta-id"]⟩

/-- Crate annotation with only the feature a, for the selectable examples. -/
def annSelA : CrateAnnotation := { CrateAnnotation.empty with features := ["a"] }

/-- Crate annotation with the features a and b. -/
def annSelAB : CrateAnnotation := { CrateAnnotation.empty with features := ["a", "b"] }

/-- Crate annotation with the features a and c. -/
def annSelAC : CrateAnnotation := { CrateAnnotation.empty with features := ["a", "c"] }

/-- Selectable value built by inserting the residuals a (at t1) and a, b
(at t2): the first collapse drops the t1 residual entirely. -/
def selDemoDrop : Select :=
  Select.insertAnn (Select.insertAnn Select.new annSelA (some "t1")) annSelAB (some "t2")

/-- Selectable value built by inserting the residuals a, b (at t1) and a, c
(at t2): the first collapse drops no residual. -/
def selDemoKeep : Select :=
  Select.insertAnn (Select.insertAnn Select.new annSelAB (some "t1")) annSelAC (some "t2")

/-- Whether every cfg-shaped platform predicate on the outgoing edges of a
package view parses under the given parser. -/
def cfgAllParse (parseCfg : String → Option CfgExpr) (pkg : PackageWithDeps) : Bool :=
  pkg.deps.all (fun d =>
    match d.target with
    | some (.cfg s) => (parseCfg s).isSome
    | _ => true)

/-- The optional-activation condition of the specification: the enabled-deps
entry of the name exists and contains Enabled or a non-optional Feature. -/
def optionalGateOk (en : List (String × List FeatureDep)) (name : String) : Bool :=
  match alGet en name with
  | none => false
  | some opts =>
    opts.any (fun o =>
      match o with
      | .enabled => true
      | .feature _ false => true
      | _ => false)

/-- Whether no candidate of the name group with a version strictly above the
selected one passes the candidate test. -/
def noHigherMatch (packages : List Package) (dep : RawDependency) (pkg : Package) : Bool :=
  (packagesByName packages dep.name).all (fun c =>
    versionLe c.version pkg.version || !(depMatchPred dep c))

/-- Whether every configuration key of an output mapping is the host triple,
the target triple, or the rendering of a platform predicate recorded on some
dep record of the resolution state. -/
def annKeysOkB (host target : TargetInfo) (resolved : ResolvedPackageMap)
    (data : AnnData) : Bool :=
  data.all (fun centry => centry.2.all (fun kentry =>
    decide (kentry.1 = host.triple) || decide (kentry.1 = target.triple) ||
      resolved.any (fun rentry => rentry.2.deps.any (fun dentry =>
        dentry.2.target.any (fun p => decide (kentry.1 = platformToString p))))))

/-- Example A resolution state (the fixed point of the run). -/
def resolvedDemoA : ResolvedPackageMap :=
  match runResolveLoop resolverDemoA parseCfgDemo hostInfoDemo targetInfoDemo 10 with
  | some (.ok f) => f
  | _ => []

/-- Enabled-deps mapping for the optional-gate example: the name opt carries
an Enabled entry. -/
def enDemo : List (String × List FeatureDep) := [("opt", [FeatureDep.enabled])]

/-- An optional dependency edge for the optional-gate example. -/
def depOptDemo : ResolveDep :=
  { id := "leaf-id", name := "opt", isAlias := false, features := []
    optional := true, useDefaultFeatues := false, target := none, kind := .normal }

/-- A default-features dependency edge for the default-feature example. -/
def depUseDefaultDemo : ResolveDep :=
  { id := "leaf-id", name := "leaf", isAlias := false, features := []
    optional := false, useDefaultFeatues := true, target := none, kind := .normal }

/-- Package view of the leaf package of example A. -/
def pwdLeafDemo : PackageWithDeps :=
  { package := pkgLeafA, flattenedFeatures := [("default", ["default"])]
    isProcMacro := false, libraryTargetName := some "leaf", deps := [] }

/-- Package view of the binary-only package of example C. -/
def pwdBinDemo : PackageWithDeps :=
  { package := pkgBinC, flattenedFeatures := []
    isProcMacro := false, libraryTargetName := none, deps := [] }

/-- The Dependency value emitted for the renamed leaf in the alias example. -/
def depEmittedDemo : Dependency :=
  { id := "leaf 1", targetName := "leaf", aliasOpt := some "my-alias"
    features := [], optional := false }

/-- A configuration key is accounted for when it is the host triple, the
target triple, or the rendering of a platform predicate recorded on some dep
record of the resolution state. -/
def goodKey (host target : TargetInfo) (resolved : ResolvedPackageMap) (k : String) : Prop :=
  k = host.triple ∨ k = target.triple ∨
    ∃ re ∈ resolved, ∃ de ∈ ((re : (PkgId × Location) × ResolvedPackageBorrow)).2.deps,
      ∃ p ∈ ((de : DepKey × DepBorrow)).2.target, k = platformToString p

/-- Every configuration key of an output mapping is accounted for. -/
def dataKeysOk (host target : TargetInfo) (resolved : ResolvedPackageMap)
    (data : AnnData) : Prop :=
  ∀ ce ∈ data, ∀ ke ∈ ((ce : String × List (String × CrateAnnotation))).2,
    goodKey host target resolved ke.1

/-- The retained edge of example F carrying the malformed cfg expression. -/
def depBadCfgDemo : ResolveDep :=
  { id := "x-id", name := "x", isAlias := false, features := []
    optional := false, useDefaultFeatues := false
    target := some (.cfg "???"), kind := .normal }

/-- The package view of the root of example E inside its resolver. -/
def pwdRootEDemo : PackageWithDeps :=
  { package := pkgRootE
    flattenedFeatures := []
    isProcMacro := false
    libraryTargetName := some "rootE"
    deps :=
      [ { id := "leafE-id", name := "leafE", isAlias := false, features := []
          optional := false, useDefaultFeatues := false
          target := some (.cfg "unix"), kind := .normal } ] }

/-- The Dependency value emitted for the renamed dependency of example B. -/
def depRenEmitted : Dependency :=
  { id := "ren 1", targetName := "ren", aliasOpt := some "my-alias"
    features := [], optional := false }

/-- Decidable equality for results in the error monad, used to evaluate the
worked examples. -/
instance {ε α : Type} [DecidableEq ε] [DecidableEq α] : DecidableEq (Except ε α) := fun x y =>
  match x, y with
  | .ok a, .ok b =>
    if h : a = b then isTrue (by rw [h])
    else isFalse (by intro hh; cases hh; exact h rfl)
  | .error a, .error b =>
    if h : a = b then isTrue (by rw [h])
    else isFalse (by intro hh; cases hh; exact h rfl)
  | .ok _, .error _ => isFalse (by intro hh; cases hh)
  | .error _, .ok _ => isFalse (by intro hh; cases hh)

/-- A feature whose flattened closure at a package contains the feature
itself; guaranteed for declared features by the construction of the
flattened-features mapping. -/
def flatGood (r : CargoResolver) (id : PkgId) (f : String) : Prop :=
  ∃ pwd, alGet r.dependencyResolve id = some pwd ∧
    ∃ l, alGet pwd.flattenedFeatures f = some l ∧ f ∈ l

/-- Invariant of the fixed-point loop: every self-contained feature recorded
on a dep record either already sits in the destination's resolved features or
is still queued for the destination on the work list. -/
def depFeatInv (r : CargoResolver) (resolved : ResolvedPackageMap)
    (stack : List StackEntry) : Prop :=
  ∀ (src : PkgId × Location) (st : ResolvedPackageBorrow) (k : DepKey) (db : DepBorrow),
    alGet resolved src = some st → alGet st.deps k = some db →
    ∀ f ∈ db.features, flatGood r k.id f →
      f ∈ ((alGet resolved (k.id, k.loc)).getD ResolvedPackageBorrow.empty).features ∨
      ∃ se ∈ stack, (se : StackEntry).1 = k.id ∧ se.2.1 = k.loc ∧ f ∈ se.2.2

/-- Resolution-state entry produced by applying the default-features demo
edge to an empty entry. -/
def applyDefaultDemoSt : ResolvedPackageBorrow :=
  match applyDep resolverDemoA [] ResolvedPackageBorrow.empty depUseDefaultDemo
      Location.target with
  | .ok st => st
  | .error _ => ResolvedPackageBorrow.empty

/-- The resolution-state entry of the example A root crate. -/
def rootStDemoA : ResolvedPackageBorrow :=
  (alGet resolvedDemoA ("root-id", Location.target)).getD ResolvedPackageBorrow.empty

/-- The dep record of the example A root crate for its leaf dependency. -/
def leafRecDemoA : DepBorrow :=
  (alGet rootStDemoA.deps ⟨"leaf-id", Location.target, DependencyKind.normal⟩).getD
    DepBorrow.empty

/-! Helper lemmas about the container model. -/

theorem alGet_mem {κ ν : Type} [DecidableEq κ] (l : List (κ × ν)) (k : κ) (v : ν)
    (h : alGet l k = some v) : (k, v) ∈ l := by
  induction l with
  | nil => simp [alGet] at h
  | cons hd tl ih =>
    obtain ⟨k', v'⟩ := hd
    simp only [alGet] at h
    by_cases hk : k' = k
    · simp [hk] at h
      subst hk h
      exact List.mem_cons_self _ _
    · simp [hk] at h
      exact List.mem_cons_of_mem _ (ih h)

theorem alGet_alSet_eq {κ ν : Type} [DecidableEq κ] (l : List (κ × ν)) (k : κ) (v : ν) :
    alGet (alSet l k v) k = some v := by
  induction l with
  | nil => simp [alSet, alGet]
  | cons hd tl ih =>
    obtain ⟨k', v'⟩ := hd
    by_cases hk : k' = k
    · simp [alSet, hk, alGet]
    · simp [alSet, hk, alGet, ih]

theorem alGet_alSet_ne {κ ν : Type} [DecidableEq κ] (l : List (κ × ν)) (k k' : κ) (v : ν)
    (h : k' ≠ k) : alGet (alSet l k v) k' = alGet l k' := by
  have hne : ∀ kk : κ, kk = k → ¬ kk = k' := by
    rintro kk rfl hh
    exact h hh.symm
  induction l with
  | nil => simp [alSet, alGet, hne k rfl]
  | cons hd tl ih =>
    obtain ⟨k'', v'⟩ := hd
    by_cases hk : k'' = k
    · subst hk
      simp [alSet, alGet, hne k'' rfl]
    · simp only [alSet, if_neg hk, alGet]
      by_cases hk' : k'' = k'
      · simp [hk']
      · simp [hk', ih]

theorem mem_alSet {κ ν : Type} [DecidableEq κ] (l : List (κ × ν)) (k : κ) (v : ν)
    (e : κ × ν) (h : e ∈ alSet l k v) : e = (k, v) ∨ e ∈ l := by
  induction l with
  | nil => simpa [alSet] using h
  | cons hd tl ih =>
    obtain ⟨k', v'⟩ := hd
    by_cases hk : k' = k
    · simp only [alSet, if_pos hk] at h
      rcases List.mem_cons.mp h with h | h
      · exact Or.inl h
      · exact Or.inr (List.mem_cons_of_mem _ h)
    · simp only [alSet, if_neg hk] at h
      rcases List.mem_cons.mp h with h | h
      · exact Or.inr (h ▸ List.mem_cons_self _ _)
      · rcases ih h with h | h
        · exact Or.inl h
        · exact Or.inr (List.mem_cons_of_mem _ h)

theorem mem_listInsert {α : Type} [DecidableEq α] (xs : List α) (a x : α) :
    x ∈ listInsert xs a ↔ x ∈ xs ∨ x = a := by
  unfold listInsert
  by_cases h : a ∈ xs
  · simp only [if_pos h]
    constructor
    · exact Or.inl
    · rintro (hx | rfl)
      · exact hx
      · exact h
  · simp [if_neg h]

theorem mem_listExtend {α : Type} [DecidableEq α] (ys xs : List α) (x : α) :
    x ∈ listExtend xs ys ↔ x ∈ xs ∨ x ∈ ys := by
  induction ys generalizing xs with
  | nil => simp [listExtend]
  | cons y ys ih =>
    show x ∈ listExtend (listInsert xs y) ys ↔ _
    rw [ih, mem_listInsert]
    constructor
    · rintro ((h | rfl) | h)
      · exact Or.inl h
      · exact Or.inr (List.mem_cons_self _ _)
      · exact Or.inr (List.mem_cons_of_mem _ h)
    · rintro (h | h)
      · exact Or.inl (Or.inl h)
      · rcases List.mem_cons.mp h with rfl | h
        · exact Or.inl (Or.inr rfl)
        · exact Or.inr h

theorem insertFeatsGo_fst_mono (fl : List String) (fs : List String) (ch : Bool)
    (x : String) (h : x ∈ fs) : x ∈ (insertFeatsGo fs ch fl).1 := by
  induction fl generalizing fs ch with
  | nil => simpa [insertFeatsGo] using h
  | cons f rest ih =>
    by_cases hf : f ∈ fs
    · simpa [insertFeatsGo, hf] using ih fs ch h
    · simpa [insertFeatsGo, hf] using ih (fs ++ [f]) true (List.mem_append_left _ h)

theorem insertFeatsGo_mem (fl : List String) (fs : List String) (ch : Bool)
    (x : String) (h : x ∈ fl) : x ∈ (insertFeatsGo fs ch fl).1 := by
  induction fl generalizing fs ch with
  | nil => cases h
  | cons f rest ih =>
    rcases List.mem_cons.mp h with rfl | h
    · by_cases hf : x ∈ fs
      · simpa [insertFeatsGo, hf] using insertFeatsGo_fst_mono rest fs ch x hf
      · simp only [insertFeatsGo, if_neg hf]
        exact insertFeatsGo_fst_mono rest _ true x (List.mem_append_right _ (List.mem_singleton.mpr rfl))
    · by_cases hf : f ∈ fs
      · simpa [insertFeatsGo, hf] using ih fs ch h
      · simpa [insertFeatsGo, hf] using ih (fs ++ [f]) true h

theorem insertFeatsGo_true (fl : List String) (fs : List String) :
    (insertFeatsGo fs true fl).2 = true := by
  induction fl generalizing fs with
  | nil => rfl
  | cons f rest ih =>
    by_cases hf : f ∈ fs
    · simpa [insertFeatsGo, hf] using ih fs
    · simpa [insertFeatsGo, hf] using ih (fs ++ [f])

theorem insertFeatsGo_false (fl : List String) (fs : List String)
    (h : (insertFeatsGo fs false fl).2 = false) :
    (insertFeatsGo fs false fl).1 = fs ∧ ∀ x ∈ fl, x ∈ fs := by
  induction fl generalizing fs with
  | nil => exact ⟨rfl, by simp⟩
  | cons f rest ih =>
    by_cases hf : f ∈ fs
    · simp only [insertFeatsGo, if_pos hf] at h ⊢
      obtain ⟨h1, h2⟩ := ih fs h
      refine ⟨h1, ?_⟩
      intro x hx
      rcases List.mem_cons.mp hx with rfl | hx
      · exact hf
      · exact h2 x hx
    · simp only [insertFeatsGo, if_neg hf] at h
      rw [insertFeatsGo_true] at h
      cases h

theorem optionalGateOk_eq (en : List (String × List FeatureDep)) (name : String) :
    optionalGateOk en name =
      ((alGet en name).getD []).any (fun o =>
        match o with
        | .enabled => true
        | .feature _ false => true
        | _ => false) := by
  cases h : alGet en name <;> simp [optionalGateOk, h]


theorem edgeAdmit_not_admitted (r : CargoResolver) (parseCfg : String → Option CfgExpr)
    (host target : TargetInfo) (location : Location)
    (en : List (String × List FeatureDep)) (dep : ResolveDep)
    (hopt : dep.optional = true)
    (hA : optionalGateOk en dep.name = false) :
    ∀ res, edgeAdmit r parseCfg host target location en dep ≠ .ok (some res) := by
  intro res
  rw [optionalGateOk_eq] at hA
  simp only [edgeAdmit]
  split
  · simp
  · split
    · simp
    · simp
    · rw [hopt]
      simp [hA]

/-- Claim C1: an optional dependency edge considered by the feature resolver is
admitted only when the enabled-deps entry of its effective name contains
Enabled or a non-optional Feature; conversely, when that condition fails - in
particular when the entry arises only from question-mark feature references -
the optional edge is never admitted. -/
theorem c1_optional_activation_gate :
    (∀ (r : CargoResolver) (parseCfg : String → Option CfgExpr)
        (host target : TargetInfo) (location : Location)
        (en : List (String × List FeatureDep)) (dep : ResolveDep)
        (res : ResolveDep × Location),
      edgeAdmit r parseCfg host target location en dep = .ok (some res) →
      dep.optional = true →
      optionalGateOk en dep.name = true) ∧
    (∀ (r : CargoResolver) (parseCfg : String → Option CfgExpr)
        (host target : TargetInfo) (location : Location)
        (en : List (String × List FeatureDep)) (dep : ResolveDep)
        (res : ResolveDep × Location),
      dep.optional = true →
      optionalGateOk en dep.name = false →
      edgeAdmit r parseCfg host target location en dep ≠ .ok (some res)) := by
  constructor
  · intro r parseCfg host target location en dep res h hopt
    by_cases hA : optionalGateOk en dep.name = true
    · exact hA
    · have hA' : optionalGateOk en dep.name = false := by
        revert hA
        cases optionalGateOk en dep.name <;> simp
      exact absurd h (edgeAdmit_not_admitted r parseCfg host target location en dep hopt hA' res)
  · intro r parseCfg host target location en dep res hopt hA
    exact edgeAdmit_not_admitted r parseCfg host target location en dep hopt hA res

/-- Witness for claim C1 at a concrete input: an optional edge admitted
because its enabled-deps entry holds Enabled. -/
theorem c1_optional_activation_gate_witness :
    edgeAdmit resolverDemoA parseCfgDemo hostInfoDemo targetInfoDemo Location.target
        enDemo depOptDemo = .ok (some (depOptDemo, Location.target)) ∧
    depOptDemo.optional = true ∧
    optionalGateOk enDemo depOptDemo.name = true :=
  ⟨by rfl, by rfl,
    c1_optional_activation_gate.1 resolverDemoA parseCfgDemo hostInfoDemo targetInfoDemo
      Location.target enDemo depOptDemo (depOptDemo, Location.target) (by rfl) (by rfl)⟩

theorem versionLe_refl (a : Version) : versionLe a a = true := by
  unfold versionLe
  cases a.pre <;> simp

theorem versionLe_total (a b : Version) : versionLe a b = true ∨ versionLe b a = true := by
  unfold versionLe
  rcases Nat.lt_trichotomy a.num b.num with h | h | h
  · left; simp [h]
  · cases ha : a.pre <;> cases hb : b.pre <;> simp [h, ha, hb]
  · right; simp [h]

theorem versionLe_trans (a b c : Version) (hab : versionLe a b = true)
    (hbc : versionLe b c = true) : versionLe a c = true := by
  unfold versionLe at *
  simp only [Bool.or_eq_true, Bool.and_eq_true, decide_eq_true_eq] at *
  rcases hab with h1 | ⟨h1, h2⟩ <;> rcases hbc with h3 | ⟨h3, h4⟩
  · left; omega
  · left; omega
  · left; omega
  · right
    refine ⟨by omega, ?_⟩
    cases ha : a.pre <;> cases hb : b.pre <;> cases hc : c.pre <;> simp_all

theorem sortByVersion_pairwise (ps : List Package) :
    List.Pairwise (fun a b => versionLe a.version b.version = true) (sortByVersion ps) := by
  haveI : IsTotal Package (fun a b => versionLe a.version b.version = true) :=
    ⟨fun a b => versionLe_total a.version b.version⟩
  haveI : IsTrans Package (fun a b => versionLe a.version b.version = true) :=
    ⟨fun a b c => versionLe_trans a.version b.version c.version⟩
  exact List.sorted_insertionSort _ ps

theorem sortByVersion_mem (ps : List Package) (c : Package) :
    c ∈ sortByVersion ps ↔ c ∈ ps :=
  (List.perm_insertionSort _ ps).mem_iff

theorem find?_descending_no_higher (dep : RawDependency) :
    ∀ (l : List Package) (pkg : Package),
      List.Pairwise (fun a b => versionLe b.version a.version = true) l →
      l.find? (depMatchPred dep) = some pkg →
      ∀ c ∈ l, versionLe c.version pkg.version = false → depMatchPred dep c = false := by
  intro l
  induction l with
  | nil => intro pkg _ hfind; simp at hfind
  | cons hd tl ih =>
    intro pkg hsort hfind c hc hlt
    rw [List.find?_cons] at hfind
    rcases List.pairwise_cons.mp hsort with ⟨hhd, htl⟩
    by_cases hp : depMatchPred dep hd = true
    · rw [hp] at hfind
      simp only [cond_true, Option.some.injEq] at hfind
      subst hfind
      rcases List.mem_cons.mp hc with rfl | hcm
      · rw [versionLe_refl] at hlt
        cases hlt
      · rw [hhd c hcm] at hlt
        cases hlt
    · have hp' : depMatchPred dep hd = false := by
        revert hp
        cases depMatchPred dep hd <;> simp
      rw [hp'] at hfind
      simp only [cond_false] at hfind
      rcases List.mem_cons.mp hc with rfl | hcm
      · exact hp'
      · exact ih pkg htl hfind c hcm hlt

/-- Counterexample for claim C4 as stated: in this name group the strictly
higher version 2 satisfies the requirement, yet the matcher selects the lower
version 1, because the source of the higher candidate does not correspond to
the source of the edge; the edge matcher is therefore not the first-candidate-
whose-version-satisfies rule. -/
theorem c4_counterexample :
    depCandidate packagesDemoD depDemoD = some pkgLowD ∧
    pkgHighD ∈ packagesByName packagesDemoD depDemoD.name ∧
    depDemoD.req.matches pkgHighD.version = true ∧
    versionLe pkgHighD.version pkgLowD.version = false := by
  refine ⟨by decide, by decide, by decide, by decide⟩

/-- Claim C4 (amended): the dependency matcher scans the name group in
descending version order and selects the first candidate that satisfies the
version requirement (or the git fallback) and whose source corresponds to the
source of the edge; with no comparators and a git-scheme source every
candidate passes the version gate regardless of version; and when no candidate
passes, the edge is silently dropped. -/
theorem c4_dep_matcher_amended :
    (∀ (packages : List Package) (dep : RawDependency) (pkg : Package),
      depCandidate packages dep = some pkg →
      depMatchPred dep pkg = true ∧ noHigherMatch packages dep pkg = true) ∧
    (∀ (dep : RawDependency) (pkg : Package) (s : String),
      dep.req.comparators = [] → dep.source = some s →
      strStartsWith s "git+" = true → versionGate dep pkg = true) ∧
    (∀ (packages : List Package) (isMember : Bool) (dep : RawDependency),
      depCandidate packages dep = none → resolveOneDep packages isMember dep = none) := by
  refine ⟨?_, ?_, ?_⟩
  · intro packages dep pkg h
    unfold depCandidate at h
    refine ⟨List.find?_some h, ?_⟩
    have hpair : List.Pairwise (fun a b => versionLe b.version a.version = true)
        (sortByVersion (packagesByName packages dep.name)).reverse :=
      List.pairwise_reverse.mpr (sortByVersion_pairwise _)
    have hall := find?_descending_no_higher dep _ pkg hpair h
    unfold noHigherMatch
    rw [List.all_eq_true]
    intro c hc
    by_cases hle : versionLe c.version pkg.version = true
    · simp [hle]
    · have hle' : versionLe c.version pkg.version = false := by
        revert hle
        cases versionLe c.version pkg.version <;> simp
      have hcmem : c ∈ (sortByVersion (packagesByName packages dep.name)).reverse := by
        rw [List.mem_reverse, sortByVersion_mem]
        exact hc
      rw [hall c hcmem hle']
      simp [hle']
  · intro dep pkg s hcmp hsrc hgit
    unfold versionGate
    rw [hsrc, hcmp]
    simp [hgit]
  · intro packages isMember dep h
    unfold resolveOneDep
    split
    · rfl
    · rw [h]

/-- Witness for the amended claim C4 at the concrete name group of the
counterexample: the selected candidate passes the full test and no strictly
higher version does. -/
theorem c4_dep_matcher_amended_witness :
    depCandidate packagesDemoD depDemoD = some pkgLowD ∧
    depMatchPred depDemoD pkgLowD = true ∧ noHigherMatch packagesDemoD depDemoD pkgLowD = true :=
  ⟨by decide,
    c4_dep_matcher_amended.1 packagesDemoD depDemoD pkgLowD (by decide)⟩

/-- Claim C10: a declared edge is matched to a candidate only when the version
gate passes and the sources correspond (both absent, or the source repr of the
candidate starts with the source of the edge); when every candidate of the
name group fails this combined test the edge is dropped. -/
theorem c10_source_correspondence :
    (∀ (packages : List Package) (dep : RawDependency) (pkg : Package),
      depCandidate packages dep = some pkg →
      versionGate dep pkg = true ∧ sourceOk dep pkg = true) ∧
    (∀ (packages : List Package) (dep : RawDependency),
      (packagesByName packages dep.name).all (fun c => !(depMatchPred dep c)) = true →
      depCandidate packages dep = none) := by
  constructor
  · intro packages dep pkg h
    unfold depCandidate at h
    have hp := List.find?_some h
    unfold depMatchPred at hp
    by_cases hv : versionGate dep pkg = true
    · rw [if_pos hv] at hp
      exact ⟨hv, hp⟩
    · rw [if_neg hv] at hp
      cases hp
  · intro packages dep hall
    unfold depCandidate
    rw [List.find?_eq_none]
    intro x hx
    rw [List.all_eq_true] at hall
    have hx' : x ∈ packagesByName packages dep.name := by
      have := List.mem_reverse.mp hx
      rw [sortByVersion_mem] at this
      exact this
    have := hall x hx'
    simp only [Bool.not_eq_true'] at this
    simp [this]

/-- Witness for claim C10 at a concrete input: the selected candidate passes
the version gate and its source corresponds to the source of the edge. -/
theorem c10_source_correspondence_witness :
    depCandidate packagesDemoD depDemoD = some pkgLowD ∧
    versionGate depDemoD pkgLowD = true ∧ sourceOk depDemoD pkgLowD = true :=
  ⟨by decide,
    c10_source_correspondence.1 packagesDemoD depDemoD pkgLowD (by decide)⟩

theorem applyDep_alias_recorded (r : CargoResolver)
    (en : List (String × List FeatureDep)) (st : ResolvedPackageBorrow)
    (dep : ResolveDep) (depLoc : Location) (st' : ResolvedPackageBorrow)
    (h : applyDep r en st dep depLoc = .ok st') :
    ∃ dr, alGet st'.deps ⟨dep.id, depLoc, dep.kind⟩ = some dr ∧
      ((if dep.isAlias then some dep.name else none), dep.optional) ∈ dr.aliasesOptional := by
  unfold applyDep at h
  split at h
  · cases h
  · simp only [Except.ok.injEq] at h
    subst h
    simp only [alGet_alSet_eq]
    refine ⟨_, rfl, ?_⟩
    split <;>
      simp [mem_listInsert]

/-- Counterexample for claim C5 as stated: the emitted Dependency for the
dependency renamed my-alias carries the alias my-alias verbatim, while the
dash-replaced form of the rename is my_alias; no dash replacement is applied
by the resolver. -/
theorem c5_counterexample :
    depRenEmitted ∈ (annAt annDemoB "rootB 1" "x86_64-unknown-linux-gnu").deps ∧
    depRenEmitted.aliasOpt = some "my-alias" ∧
    specAliasNormalize "my-alias" = "my_alias" ∧
    depRenEmitted.aliasOpt ≠ some (specAliasNormalize "my-alias") := by
  refine ⟨by decide, by decide, by decide, by decide⟩

/-- Claim C5 (amended): an emitted Dependency carries the alias exactly as
recorded on the dep record, which in turn is the rename of the edge verbatim
when the edge is renamed (and absent otherwise); no dash-to-underscore
normalisation is applied by the resolver. -/
theorem c5_alias_verbatim_amended :
    (∀ (r : CargoResolver) (en : List (String × List FeatureDep))
        (st : ResolvedPackageBorrow) (dep : ResolveDep) (depLoc : Location)
        (st' : ResolvedPackageBorrow),
      applyDep r en st dep depLoc = .ok st' →
      ∃ dr, alGet st'.deps ⟨dep.id, depLoc, dep.kind⟩ = some dr ∧
        ((if dep.isAlias then some dep.name else none), dep.optional) ∈ dr.aliasesOptional) ∧
    (∀ (depPkg : PackageWithDeps) (aliasOpt : Option String) (features : List String)
        (optional : Bool) (d : Dependency),
      mkDependency depPkg aliasOpt features optional = .ok d → d.aliasOpt = aliasOpt) := by
  constructor
  · exact applyDep_alias_recorded
  · intro depPkg aliasOpt features optional d h
    unfold mkDependency at h
    split at h
    · cases h
    · simp only [Except.ok.injEq] at h
      subst h
      rfl

/-- Witness for the amended claim C5: the Dependency built for the renamed
leaf keeps the alias my-alias verbatim. -/
theorem c5_alias_verbatim_amended_witness :
    mkDependency pwdLeafDemo (some "my-alias") [] false = .ok depEmittedDemo ∧
    depEmittedDemo.aliasOpt = some "my-alias" :=
  ⟨by rfl,
    c5_alias_verbatim_amended.2 pwdLeafDemo (some "my-alias") [] false depEmittedDemo (by rfl)⟩

/-- Counterexample for claim C6 as stated: on a run whose only dependency
points at a binary-only package the annotator fails with the unwrap panic
instead of emitting a Dependency with an empty target name. -/
theorem c6_counterexample :
    CargoResolver.resolve resolverDemoC parseCfgDemo hostInfoDemo targetInfoDemo 10 [] =
      some (.error ResolveError.unwrapNone) ∧
    (alGet resolverDemoC.dependencyResolve "binonly-id").map
        (fun p => p.libraryTargetName) = some none := by
  refine ⟨by decide, by decide⟩

/-- Claim C6 (amended): the target name of every emitted Dependency is the
library target name of its destination package, and for a destination without
any library target the annotator does not emit an empty string but fails with
the unwrap panic. -/
theorem c6_target_name_amended :
    (∀ (depPkg : PackageWithDeps) (aliasOpt : Option String) (features : List String)
        (optional : Bool) (d : Dependency),
      mkDependency depPkg aliasOpt features optional = .ok d →
      depPkg.libraryTargetName = some d.targetName) ∧
    (∀ (depPkg : PackageWithDeps) (aliasOpt : Option String) (features : List String)
        (optional : Bool),
      depPkg.libraryTargetName = none →
      mkDependency depPkg aliasOpt features optional = .error .unwrapNone) := by
  constructor
  · intro depPkg aliasOpt features optional d h
    unfold mkDependency at h
    split at h
    · cases h
    · rename_i tn htn
      simp only [Except.ok.injEq] at h
      subst h
      exact htn
  · intro depPkg aliasOpt features optional h
    unfold mkDependency
    rw [h]

/-- Witness for the amended claim C6: building the Dependency for a
binary-only destination fails with the unwrap panic. -/
theorem c6_target_name_amended_witness :
    pwdBinDemo.libraryTargetName = none ∧
    mkDependency pwdBinDemo none [] false = .error .unwrapNone :=
  ⟨by rfl, c6_target_name_amended.2 pwdBinDemo none [] false (by rfl)⟩

theorem mem_proj_merge {α : Type} [DecidableEq α] (p : CrateAnnotation → List α)
    (hp : ∀ a b, p ( CrateAnnotation.merge a b) = listExtend (p a) (p b))
    (a b : CrateAnnotation) (x : α) :
    x ∈ p (a.merge b) ↔ x ∈ p a ∨ x ∈ p b := by
  rw [hp]
  exact mem_listExtend _ _ _

theorem mem_proj_diff {α : Type} [DecidableEq α] (p : CrateAnnotation → List α)
    (hp : ∀ a b, p ( CrateAnnotation.diff a b) = (p a).filter (fun u => decide (¬ u ∈ p b)))
    (a b : CrateAnnotation) (x : α) :
    x ∈ p (a.diff b) ↔ x ∈ p a ∧ ¬ x ∈ p b := by
  rw [hp, List.mem_filter]
  simp

theorem mem_proj_interFold {α : Type} [DecidableEq α] (p : CrateAnnotation → List α)
    (hp : ∀ a b, p ( CrateAnnotation.intersect a b) = (p a).filter (fun u => decide (u ∈ p b))) :
    ∀ (vs : List CrateAnnotation) (seed : CrateAnnotation) (x : α),
      x ∈ p (selectsIntersection seed vs) ↔ x ∈ p seed ∧ ∀ v ∈ vs, x ∈ p v := by
  intro vs
  induction vs with
  | nil =>
    intro seed x
    simp [selectsIntersection]
  | cons v vs ih =>
    intro seed x
    have hstep : selectsIntersection seed (v :: vs) = selectsIntersection (seed.intersect v) vs := rfl
    rw [hstep, ih]
    have h1 : x ∈ p (seed.intersect v) ↔ x ∈ p seed ∧ x ∈ p v := by
      rw [hp, List.mem_filter]
      simp
    rw [h1]
    constructor
    · rintro ⟨⟨hs, hv⟩, hall⟩
      refine ⟨hs, ?_⟩
      intro u hu
      rcases List.mem_cons.mp hu with rfl | hu
      · exact hv
      · exact hall u hu
    · rintro ⟨hs, hall⟩
      exact ⟨⟨hs, hall v (List.mem_cons_self _ _)⟩, fun u hu => hall u (List.mem_cons_of_mem _ hu)⟩

theorem annIsEmpty_iff (a : CrateAnnotation) :
    a.isEmpty = true ↔
      a.features = [] ∧ a.deps = [] ∧ a.depsDev = [] ∧ a.procMacroDeps = [] ∧
        a.procMacroDepsDev = [] ∧ a.buildDeps = [] ∧ a.buildProcMacroDeps = [] ∧
        a.buildLinkDeps = [] := by
  unfold CrateAnnotation.isEmpty
  simp [List.isEmpty_iff, Bool.and_eq_true, and_assoc]

theorem optimizeAnn_nil (s : Select) (hsel : s.selects = []) :
    Select.optimizeAnn s = s := by
  unfold Select.optimizeAnn
  rw [hsel]

theorem optimizeAnn_interEmpty (s : Select) (k0 : String) (v0 : CrateAnnotation)
    (rest : List (String × CrateAnnotation)) (hsel : s.selects = (k0, v0) :: rest)
    (hIe : (selectsIntersection v0 (rest.map (fun kv => kv.2))).isEmpty = true) :
    Select.optimizeAnn s = s := by
  unfold Select.optimizeAnn
  rw [hsel]
  simp only [hIe, if_pos]

theorem optimizeAnn_shape (s : Select) (k0 : String) (v0 : CrateAnnotation)
    (rest : List (String × CrateAnnotation)) (hsel : s.selects = (k0, v0) :: rest)
    (hIe : (selectsIntersection v0 (rest.map (fun kv => kv.2))).isEmpty = false) :
    Select.optimizeAnn s =
      ⟨s.common.merge (selectsIntersection v0 (rest.map (fun kv => kv.2))),
        retainDiffed s.selects
          (s.common.merge (selectsIntersection v0 (rest.map (fun kv => kv.2))))⟩ := by
  unfold Select.optimizeAnn
  rw [hsel]
  simp only [hIe]
  rw [← hsel]
  simp

theorem retainDiffed_eq_map (sel : List (String × CrateAnnotation)) (common : CrateAnnotation)
    (h : (retainDiffed sel common).length = sel.length) :
    retainDiffed sel common = sel.map (fun kv => (kv.1, kv.2.diff common)) := by
  unfold retainDiffed at *
  have hlen : ((sel.map (fun kv => (kv.1, kv.2.diff common))).filter
      (fun kv => !kv.2.isEmpty)).length = (sel.map (fun kv => (kv.1, kv.2.diff common))).length := by
    rw [List.length_map]
    exact h
  exact List.filter_eq_self.mpr (List.filter_length_eq_length.mp hlen)

theorem secondPass_field_nil {α : Type} [DecidableEq α] (p : CrateAnnotation → List α)
    (hpm : ∀ a b, p ( CrateAnnotation.merge a b) = listExtend (p a) (p b))
    (hpd : ∀ a b, p ( CrateAnnotation.diff a b) = (p a).filter (fun u => decide (¬ u ∈ p b)))
    (hpi : ∀ a b, p ( CrateAnnotation.intersect a b) = (p a).filter (fun u => decide (u ∈ p b)))
    (c v0 : CrateAnnotation) (rest : List (String × CrateAnnotation)) :
    p (selectsIntersection
        (v0.diff (c.merge (selectsIntersection v0 (rest.map (fun kv => kv.2)))))
        (((rest.map (fun kv =>
            (kv.1, kv.2.diff (c.merge (selectsIntersection v0 (rest.map (fun kv => kv.2))))))).map
          (fun kv => kv.2)))) = [] := by
  rw [List.eq_nil_iff_forall_not_mem]
  intro x hx
  rw [mem_proj_interFold p hpi] at hx
  obtain ⟨hseed, hall⟩ := hx
  obtain ⟨hv0, hnc⟩ := (mem_proj_diff p hpd _ _ x).mp hseed
  apply hnc
  rw [mem_proj_merge p hpm]
  right
  rw [mem_proj_interFold p hpi]
  refine ⟨hv0, ?_⟩
  intro v hv
  obtain ⟨kv, hkv, rfl⟩ := List.mem_map.mp hv
  have hmem : (kv.2.diff (c.merge (selectsIntersection v0 (rest.map (fun kv => kv.2))))) ∈
      ((rest.map (fun kv =>
        (kv.1, kv.2.diff (c.merge (selectsIntersection v0 (rest.map (fun kv => kv.2))))))).map
        (fun kv => kv.2)) := by
    rw [List.mem_map]
    refine ⟨(kv.1, kv.2.diff (c.merge (selectsIntersection v0 (rest.map (fun kv => kv.2))))), ?_, rfl⟩
    rw [List.mem_map]
    exact ⟨kv, hkv, rfl⟩
  have := hall _ hmem
  exact ((mem_proj_diff p hpd _ _ x).mp this).1

theorem optimizeAnn_twice_of_no_drop (s : Select)
    (hlen : (Select.optimizeAnn s).selects.length = s.selects.length) :
    Select.optimizeAnn (Select.optimizeAnn s) = Select.optimizeAnn s := by
  rcases hsel : s.selects with _ | ⟨⟨k0, v0⟩, rest⟩
  · have h1 := optimizeAnn_nil s hsel
    rw [h1]
    exact h1
  · by_cases hIe : (selectsIntersection v0 (rest.map (fun kv => kv.2))).isEmpty = true
    · have h1 := optimizeAnn_interEmpty s k0 v0 rest hsel hIe
      rw [h1]
      exact h1
    · have hIe' : (selectsIntersection v0 (rest.map (fun kv => kv.2))).isEmpty = false := by
        revert hIe
        cases (selectsIntersection v0 (rest.map (fun kv => kv.2))).isEmpty <;> simp
      have h1 := optimizeAnn_shape s k0 v0 rest hsel hIe'
      have hlen' : (retainDiffed s.selects
          (s.common.merge (selectsIntersection v0 (rest.map (fun kv => kv.2))))).length =
          s.selects.length := by
        rw [h1] at hlen
        exact hlen
      have hmap := retainDiffed_eq_map s.selects
        (s.common.merge (selectsIntersection v0 (rest.map (fun kv => kv.2)))) hlen'
      have hsel' : (Select.optimizeAnn s).selects =
          (k0, v0.diff (s.common.merge (selectsIntersection v0 (rest.map (fun kv => kv.2))))) ::
            rest.map (fun kv =>
              (kv.1, kv.2.diff (s.common.merge (selectsIntersection v0 (rest.map (fun kv => kv.2)))))) := by
        rw [h1]
        show retainDiffed s.selects _ = _
        rw [hmap, hsel]
        rfl
      apply optimizeAnn_interEmpty (Select.optimizeAnn s) k0 _ _ hsel'
      rw [annIsEmpty_iff]
      exact ⟨secondPass_field_nil (fun a => a.features) (fun _ _ => rfl) (fun _ _ => rfl) (fun _ _ => rfl) s.common v0 rest,
        secondPass_field_nil (fun a => a.deps) (fun _ _ => rfl) (fun _ _ => rfl) (fun _ _ => rfl) s.common v0 rest,
        secondPass_field_nil (fun a => a.depsDev) (fun _ _ => rfl) (fun _ _ => rfl) (fun _ _ => rfl) s.common v0 rest,
        secondPass_field_nil (fun a => a.procMacroDeps) (fun _ _ => rfl) (fun _ _ => rfl) (fun _ _ => rfl) s.common v0 rest,
        secondPass_field_nil (fun a => a.procMacroDepsDev) (fun _ _ => rfl) (fun _ _ => rfl) (fun _ _ => rfl) s.common v0 rest,
        secondPass_field_nil (fun a => a.buildDeps) (fun _ _ => rfl) (fun _ _ => rfl) (fun _ _ => rfl) s.common v0 rest,
        secondPass_field_nil (fun a => a.buildProcMacroDeps) (fun _ _ => rfl) (fun _ _ => rfl) (fun _ _ => rfl) s.common v0 rest,
        secondPass_field_nil (fun a => a.buildLinkDeps) (fun _ _ => rfl) (fun _ _ => rfl) (fun _ _ => rfl) s.common v0 rest⟩

theorem alGet_none_of_not_key {κ ν : Type} [DecidableEq κ] (l : List (κ × ν)) (k : κ)
    (h : ¬ k ∈ l.map Prod.fst) : alGet l k = none := by
  induction l with
  | nil => rfl
  | cons hd tl ih =>
    obtain ⟨k', v'⟩ := hd
    simp only [List.map_cons, List.mem_cons] at h
    push_neg at h
    simp only [alGet]
    rw [if_neg (fun hh => h.1 hh.symm)]
    exact ih h.2

theorem retainDiffed_keys_sub (sel : List (String × CrateAnnotation))
    (common : CrateAnnotation) (k : String)
    (h : k ∈ (retainDiffed sel common).map Prod.fst) : k ∈ sel.map Prod.fst := by
  unfold retainDiffed at h
  obtain ⟨kv, hkv, rfl⟩ := List.mem_map.mp h
  have hkv' := List.mem_of_mem_filter hkv
  obtain ⟨kv0, hkv0, rfl⟩ := List.mem_map.mp hkv'
  exact List.mem_map.mpr ⟨kv0, hkv0, rfl⟩

theorem alGet_retainDiffed (sel : List (String × CrateAnnotation))
    (common : CrateAnnotation) (t : String) (v : CrateAnnotation)
    (hnodup : (sel.map Prod.fst).Nodup) (h : alGet sel t = some v) :
    alGet (retainDiffed sel common) t =
      if (v.diff common).isEmpty = true then none else some (v.diff common) := by
  induction sel with
  | nil => cases h
  | cons hd tl ih =>
    obtain ⟨k0, v0⟩ := hd
    have hstep : retainDiffed ((k0, v0) :: tl) common =
        List.filter (fun kv => !kv.2.isEmpty)
          ((k0, v0.diff common) :: tl.map (fun kv => (kv.1, kv.2.diff common))) := rfl
    rw [List.map_cons, List.nodup_cons] at hnodup
    simp only [alGet] at h
    by_cases hk : k0 = t
    · rw [if_pos hk] at h
      obtain rfl : v0 = v := by injection h
      subst hk
      rw [hstep, List.filter_cons]
      by_cases hE : (v0.diff common).isEmpty = true
      · simp only [hE, Bool.not_true]
        rw [if_neg (by simp)]
        simp only [if_true]
        apply alGet_none_of_not_key
        intro hmem
        exact hnodup.1 (retainDiffed_keys_sub tl common k0 hmem)
      · have hE' : (v0.diff common).isEmpty = false := by
          revert hE
          cases (v0.diff common).isEmpty <;> simp
        simp only [hE', Bool.not_false]
        simp [alGet]
    · rw [if_neg hk] at h
      rw [hstep, List.filter_cons]
      split
      · simp only [alGet]
        rw [if_neg hk]
        exact ih hnodup.2 h
      · exact ih hnodup.2 h

theorem annEquiv_empty_merge (v : CrateAnnotation) :
    annEquiv ( CrateAnnotation.empty.merge v) v := by
  refine ⟨?_, ?_, ?_, ?_, ?_, ?_, ?_, ?_⟩ <;>
    intro x <;>
    simp [ CrateAnnotation.merge, CrateAnnotation.empty, mem_listExtend]

theorem slice_field_equiv {α : Type} [DecidableEq α] (p : CrateAnnotation → List α)
    (hpm : ∀ a b, p ( CrateAnnotation.merge a b) = listExtend (p a) (p b))
    (hpd : ∀ a b, p ( CrateAnnotation.diff a b) = (p a).filter (fun u => decide (¬ u ∈ p b)))
    (hpi : ∀ a b, p ( CrateAnnotation.intersect a b) = (p a).filter (fun u => decide (u ∈ p b)))
    (hpe : p CrateAnnotation.empty = [])
    (v v0 : CrateAnnotation) (vals : List CrateAnnotation)
    (hvv : v = v0 ∨ v ∈ vals)
    (hdrop : (v.diff ( CrateAnnotation.empty.merge (selectsIntersection v0 vals))).isEmpty = true →
      p (v.diff ( CrateAnnotation.empty.merge (selectsIntersection v0 vals))) = [])
    (x : α) :
    x ∈ p (( CrateAnnotation.empty.merge (selectsIntersection v0 vals)).merge
      ((if (v.diff ( CrateAnnotation.empty.merge (selectsIntersection v0 vals))).isEmpty = true
        then none
        else some (v.diff ( CrateAnnotation.empty.merge (selectsIntersection v0 vals)))).getD
        CrateAnnotation.empty)) ↔ x ∈ p v := by
  have hCI : ∀ y, y ∈ p ( CrateAnnotation.empty.merge (selectsIntersection v0 vals)) ↔
      y ∈ p (selectsIntersection v0 vals) := by
    intro y
    rw [mem_proj_merge p hpm, hpe]
    simp
  have hIv : ∀ y, y ∈ p (selectsIntersection v0 vals) → y ∈ p v := by
    intro y hy
    rw [mem_proj_interFold p hpi] at hy
    rcases hvv with rfl | hv
    · exact hy.1
    · exact hy.2 v hv
  by_cases hE : (v.diff ( CrateAnnotation.empty.merge (selectsIntersection v0 vals))).isEmpty = true
  · rw [if_pos hE]
    simp only [Option.getD_none]
    rw [mem_proj_merge p hpm, hpe]
    simp only [List.not_mem_nil, or_false]
    constructor
    · intro h
      exact hIv x ((hCI x).mp h)
    · intro hxv
      have hnil := hdrop hE
      have hnot : ¬ x ∈ p (v.diff ( CrateAnnotation.empty.merge (selectsIntersection v0 vals))) := by
        rw [hnil]
        simp
      rw [mem_proj_diff p hpd] at hnot
      push_neg at hnot
      rw [hCI]
      by_contra hc
      have := hnot hxv
      rw [hCI] at this
      exact hc this
  · rw [if_neg hE]
    simp only [Option.getD_some]
    rw [mem_proj_merge p hpm]
    constructor
    · rintro (hc | hd)
      · exact hIv x ((hCI x).mp hc)
      · exact ((mem_proj_diff p hpd _ _ x).mp hd).1
    · intro hxv
      by_cases hc : x ∈ p ( CrateAnnotation.empty.merge (selectsIntersection v0 vals))
      · exact Or.inl hc
      · exact Or.inr ((mem_proj_diff p hpd _ _ x).mpr ⟨hxv, hc⟩)

theorem optimizeAnn_slice_preserved (s : Select) (t : String) (v : CrateAnnotation)
    (hnodup : (s.selects.map Prod.fst).Nodup) (hcommon : s.common = CrateAnnotation.empty)
    (h : alGet s.selects t = some v) :
    annEquiv ((Select.optimizeAnn s).common.merge
      (lookupOrEmpty (Select.optimizeAnn s).selects t)) v := by
  rcases hsel : s.selects with _ | ⟨⟨k0, v0⟩, rest⟩
  · rw [hsel] at h
    cases h
  · by_cases hIe : (selectsIntersection v0 (rest.map (fun kv => kv.2))).isEmpty = true
    · have h1 := optimizeAnn_interEmpty s k0 v0 rest hsel hIe
      rw [h1, hcommon]
      have hl : lookupOrEmpty s.selects t = v := by
        unfold lookupOrEmpty
        rw [h]
        rfl
      rw [hl]
      exact annEquiv_empty_merge v
    · have hIe' : (selectsIntersection v0 (rest.map (fun kv => kv.2))).isEmpty = false := by
        revert hIe
        cases (selectsIntersection v0 (rest.map (fun kv => kv.2))).isEmpty <;> simp
      have h1 := optimizeAnn_shape s k0 v0 rest hsel hIe'
      have hget := alGet_retainDiffed s.selects
        (s.common.merge (selectsIntersection v0 (rest.map (fun kv => kv.2)))) t v hnodup h
      have hvv : v = v0 ∨ v ∈ rest.map (fun kv => kv.2) := by
        have hmem := alGet_mem s.selects t v h
        rw [hsel] at hmem
        rcases List.mem_cons.mp hmem with heq | hmem
        · left
          injection heq with h1' h2'
        · right
          exact List.mem_map.mpr ⟨(t, v), hmem, rfl⟩
      rw [h1, hcommon]
      have hlk : lookupOrEmpty (retainDiffed s.selects
          ( CrateAnnotation.empty.merge (selectsIntersection v0 (rest.map (fun kv => kv.2))))) t =
          (if (v.diff ( CrateAnnotation.empty.merge
              (selectsIntersection v0 (rest.map (fun kv => kv.2))))).isEmpty = true
           then none
           else some (v.diff ( CrateAnnotation.empty.merge
             (selectsIntersection v0 (rest.map (fun kv => kv.2)))))).getD CrateAnnotation.empty := by
        unfold lookupOrEmpty
        rw [hcommon] at hget
        rw [hget]
      refine ⟨?_, ?_, ?_, ?_, ?_, ?_, ?_, ?_⟩ <;> intro x
      · rw [hlk]
        exact slice_field_equiv (fun a => a.features) (fun _ _ => rfl) (fun _ _ => rfl)
          (fun _ _ => rfl) rfl v v0 (rest.map (fun kv => kv.2)) hvv
          (fun hE => ((annIsEmpty_iff _).mp hE).1) x
      · rw [hlk]
        exact slice_field_equiv (fun a => a.deps) (fun _ _ => rfl) (fun _ _ => rfl)
          (fun _ _ => rfl) rfl v v0 (rest.map (fun kv => kv.2)) hvv
          (fun hE => ((annIsEmpty_iff _).mp hE).2.1) x
      · rw [hlk]
        exact slice_field_equiv (fun a => a.depsDev) (fun _ _ => rfl) (fun _ _ => rfl)
          (fun _ _ => rfl) rfl v v0 (rest.map (fun kv => kv.2)) hvv
          (fun hE => ((annIsEmpty_iff _).mp hE).2.2.1) x
      · rw [hlk]
        exact slice_field_equiv (fun a => a.procMacroDeps) (fun _ _ => rfl) (fun _ _ => rfl)
          (fun _ _ => rfl) rfl v v0 (rest.map (fun kv => kv.2)) hvv
          (fun hE => ((annIsEmpty_iff _).mp hE).2.2.2.1) x
      · rw [hlk]
        exact slice_field_equiv (fun a => a.procMacroDepsDev) (fun _ _ => rfl) (fun _ _ => rfl)
          (fun _ _ => rfl) rfl v v0 (rest.map (fun kv => kv.2)) hvv
          (fun hE => ((annIsEmpty_iff _).mp hE).2.2.2.2.1) x
      · rw [hlk]
        exact slice_field_equiv (fun a => a.buildDeps) (fun _ _ => rfl) (fun _ _ => rfl)
          (fun _ _ => rfl) rfl v v0 (rest.map (fun kv => kv.2)) hvv
          (fun hE => ((annIsEmpty_iff _).mp hE).2.2.2.2.2.1) x
      · rw [hlk]
        exact slice_field_equiv (fun a => a.buildProcMacroDeps) (fun _ _ => rfl) (fun _ _ => rfl)
          (fun _ _ => rfl) rfl v v0 (rest.map (fun kv => kv.2)) hvv
          (fun hE => ((annIsEmpty_iff _).mp hE).2.2.2.2.2.2.1) x
      · rw [hlk]
        exact slice_field_equiv (fun a => a.buildLinkDeps) (fun _ _ => rfl) (fun _ _ => rfl)
          (fun _ _ => rfl) rfl v v0 (rest.map (fun kv => kv.2)) hvv
          (fun hE => ((annIsEmpty_iff _).mp hE).2.2.2.2.2.2.2) x

/-- Counterexample for claim C8 as stated: for the selectable value built by
inserting the residual a at t1 and the residual a, b at t2, the first collapse
lifts a into common and drops the t1 residual entirely, after which a second
collapse lifts b as well; running the optimisation twice therefore differs
from running it once. -/
theorem c8_counterexample :
    Select.optimizeAnn (Select.optimizeAnn selDemoDrop) ≠ Select.optimizeAnn selDemoDrop := by
  decide

/-- Claim C8 (amended): the selectable-collapse optimisation is idempotent
whenever its first pass drops no per-triple residual (a dropped residual can
make a second pass lift more into common); and for every configuration present
before the collapse, the union of the common part and the residual of that
configuration after the collapse is set-equivalent to the pre-collapse
per-triple value. -/
theorem c8_selectable_collapse_amended :
    (∀ s : Select,
      (Select.optimizeAnn s).selects.length = s.selects.length →
      Select.optimizeAnn (Select.optimizeAnn s) = Select.optimizeAnn s) ∧
    (∀ (s : Select) (t : String) (v : CrateAnnotation),
      (s.selects.map Prod.fst).Nodup →
      s.common = CrateAnnotation.empty →
      alGet s.selects t = some v →
      annEquiv ((Select.optimizeAnn s).common.merge
        (lookupOrEmpty (Select.optimizeAnn s).selects t)) v) :=
  ⟨optimizeAnn_twice_of_no_drop, optimizeAnn_slice_preserved⟩

/-- Witness for the amended claim C8 at a concrete selectable value whose
first collapse drops nothing: the collapse is idempotent there, and the t1
slice is preserved. -/
theorem c8_selectable_collapse_amended_witness :
    (Select.optimizeAnn selDemoKeep).selects.length = selDemoKeep.selects.length ∧
    Select.optimizeAnn (Select.optimizeAnn selDemoKeep) = Select.optimizeAnn selDemoKeep ∧
    annEquiv ((Select.optimizeAnn selDemoKeep).common.merge
      (lookupOrEmpty (Select.optimizeAnn selDemoKeep).selects "t1")) annSelAB :=
  ⟨by decide,
    c8_selectable_collapse_amended.1 selDemoKeep (by decide),
    c8_selectable_collapse_amended.2 selDemoKeep "t1" annSelAB (by decide) (by decide) (by decide)⟩

theorem resolveLoop_inv (r : CargoResolver) (parseCfg : String → Option CfgExpr)
    (host target : TargetInfo) (P : ResolvedPackageMap → List StackEntry → Prop)
    (hstep : ∀ resolved id loc feats rest resolved' pushes,
      P resolved ((id, loc, feats) :: rest) →
      resolveStep r parseCfg host target resolved id loc feats = .ok (resolved', pushes) →
      P resolved' (pushes.reverse ++ rest)) :
    ∀ (fuel : Nat) (resolved : ResolvedPackageMap) (stack : List StackEntry)
      (final : ResolvedPackageMap), P resolved stack →
      resolveLoop r parseCfg host target fuel resolved stack = some (.ok final) →
      P final [] := by
  intro fuel
  induction fuel with
  | zero =>
    intro resolved stack final hP hrun
    cases stack with
    | nil =>
      simp only [resolveLoop, Option.some.injEq, Except.ok.injEq] at hrun
      subst hrun
      exact hP
    | cons e rest =>
      simp [resolveLoop] at hrun
  | succ n ih =>
    intro resolved stack final hP hrun
    cases stack with
    | nil =>
      simp only [resolveLoop, Option.some.injEq, Except.ok.injEq] at hrun
      subst hrun
      exact hP
    | cons e rest =>
      obtain ⟨id, loc, feats⟩ := e
      rw [resolveLoop] at hrun
      cases hstepres : resolveStep r parseCfg host target resolved id loc feats with
      | error err =>
        rw [hstepres] at hrun
        simp at hrun
      | ok pr =>
        obtain ⟨resolved', pushes⟩ := pr
        rw [hstepres] at hrun
        exact ih resolved' (pushes.reverse ++ rest) final
          (hstep resolved id loc feats rest resolved' pushes hP hstepres) hrun

theorem resolveStep_ok_elim (r : CargoResolver) (parseCfg : String → Option CfgExpr)
    (host target : TargetInfo) (resolved : ResolvedPackageMap) (id : PkgId)
    (location : Location) (features : List String) (resolved' : ResolvedPackageMap)
    (pushes : List StackEntry)
    (h : resolveStep r parseCfg host target resolved id location features =
      .ok (resolved', pushes)) :
    ∃ pkg flattened st0 st1,
      alGet r.dependencyResolve id = some pkg ∧
      flattened = (features.filterMap (alGet pkg.flattenedFeatures)).flatten ∧
      st0 = (alGet resolved (id, location)).getD ResolvedPackageBorrow.empty ∧
      st1 = { st0 with features := (insertFeats st0.features flattened).1 } ∧
      ((hasKey resolved (id, location) = true ∧ (insertFeats st0.features flattened).2 = false ∧
          resolved' = alSet resolved (id, location) st1 ∧ pushes = []) ∨
        (∃ admitted st2,
          collectAdmitted r parseCfg host target location
            (enabledDepsOf pkg.package flattened) pkg.deps = .ok admitted ∧
          processDeps r (enabledDepsOf pkg.package flattened) id location
            (alSet resolved (id, location) st1) admitted st1 [] = .ok (st2, pushes) ∧
          resolved' = alSet (alSet resolved (id, location) st1) (id, location) st2)) := by
  simp only [resolveStep] at h
  split at h
  · cases h
  · rename_i pkg hpkg
    refine ⟨pkg, _, _, _, hpkg, rfl, rfl, rfl, ?_⟩
    split at h
    · rename_i hcond
      left
      simp only [Except.ok.injEq, Prod.mk.injEq] at h
      obtain ⟨h1, h2⟩ := h
      have hcond' : (!(!hasKey resolved (id, location) ||
          (insertFeats ((alGet resolved (id, location)).getD ResolvedPackageBorrow.empty).features
            ((features.filterMap (alGet pkg.flattenedFeatures)).flatten)).2)) = true := hcond
      rw [Bool.not_or] at hcond'
      rw [Bool.and_eq_true] at hcond'
      obtain ⟨ha, hb⟩ := hcond'
      rw [Bool.not_not] at ha
      rw [Bool.not_eq_true'] at hb
      exact ⟨ha, hb, h1.symm, h2.symm⟩
    · right
      split at h
      · cases h
      · rename_i admitted hadm
        split at h <;>
          first
            | exact Except.noConfusion h
            | (cases h
               exact ⟨admitted, _, hadm, by assumption, rfl⟩)

theorem hasKey_alSet {κ ν : Type} [DecidableEq κ] (l : List (κ × ν)) (k k' : κ) (v : ν)
    (h : hasKey (alSet l k v) k' = true) : k' = k ∨ hasKey l k' = true := by
  by_cases hk : k' = k
  · exact Or.inl hk
  · right
    unfold hasKey at *
    rw [alGet_alSet_ne l k k' v hk] at h
    exact h

theorem edgeAdmit_ok_parse (r : CargoResolver) (parseCfg : String → Option CfgExpr)
    (host target : TargetInfo) (location : Location)
    (en : List (String × List FeatureDep)) (dep : ResolveDep)
    (res : Option (ResolveDep × Location)) (s : String)
    (h : edgeAdmit r parseCfg host target location en dep = .ok res)
    (hcfg : dep.target = some (.cfg s)) : (parseCfg s).isSome = true := by
  simp only [edgeAdmit] at h
  split at h
  · cases h
  · simp only [hcfg] at h
    cases hp : parseCfg s with
    | none =>
      simp only [hp] at h
      cases h
    | some e => rfl

theorem collectAdmitted_cfg_parse (r : CargoResolver) (parseCfg : String → Option CfgExpr)
    (host target : TargetInfo) (location : Location)
    (en : List (String × List FeatureDep)) :
    ∀ (deps : List ResolveDep) (admitted : List (ResolveDep × Location)),
      collectAdmitted r parseCfg host target location en deps = .ok admitted →
      deps.all (fun d =>
        match d.target with
        | some (.cfg s) => (parseCfg s).isSome
        | _ => true) = true := by
  intro deps
  induction deps with
  | nil => intro admitted _; rfl
  | cons dep rest ih =>
    intro admitted h
    rw [List.all_cons]
    simp only [collectAdmitted] at h
    split at h
    · cases h
    · rename_i hadm
      rw [Bool.and_eq_true]
      constructor
      · cases hct : dep.target with
        | none => rfl
        | some pl =>
          cases pl with
          | cfg s => exact edgeAdmit_ok_parse r parseCfg host target location en dep _ s hadm hct
          | name n => rfl
      · exact ih admitted h
    · rename_i x hadm
      split at h
      · cases h
      · rename_i adm' hrest
        rw [Bool.and_eq_true]
        constructor
        · cases hct : dep.target with
          | none => rfl
          | some pl =>
            cases pl with
            | cfg s => exact edgeAdmit_ok_parse r parseCfg host target location en dep _ s hadm hct
            | name n => rfl
        · exact ih adm' hrest

/-- Counterexample for claim C9 as stated: two runs whose offending packages
and dependency names differ (alpha with dependency x, beta with dependency y)
abort with byte-identical errors carrying only the malformed expression; the
fatal error therefore does not identify the offending package and dependency
name. -/
theorem c9_counterexample :
    runResolveLoop resolverDemoFa parseCfgDemo hostInfoDemo targetInfoDemo 10 =
      some (.error (.badCfg "???")) ∧
    runResolveLoop resolverDemoFb parseCfgDemo hostInfoDemo targetInfoDemo 10 =
      some (.error (.badCfg "???")) ∧
    resolverDemoFa ≠ resolverDemoFb := by
  refine ⟨by decide, by decide, by decide⟩

/-- Claim C9 (amended): a dependency edge whose cfg expression fails to parse
aborts the resolution fatally (the panic carries only the malformed
expression, not the offending package or dependency name), and resolution
never continues past a malformed cfg expression: every package with a
resolution-state entry in a completed run has all its cfg predicates
parseable. -/
theorem c9_bad_cfg_fatal_amended :
    (∀ (r : CargoResolver) (parseCfg : String → Option CfgExpr)
        (host target : TargetInfo) (location : Location)
        (en : List (String × List FeatureDep)) (dep : ResolveDep) (s : String)
        (dst : PackageWithDeps),
      dep.target = some (.cfg s) → parseCfg s = none →
      alGet r.dependencyResolve dep.id = some dst →
      edgeAdmit r parseCfg host target location en dep = .error (.badCfg s)) ∧
    (∀ (r : CargoResolver) (parseCfg : String → Option CfgExpr)
        (host target : TargetInfo) (fuel : Nat) (seeds : List StackEntry)
        (final : ResolvedPackageMap),
      resolveLoop r parseCfg host target fuel [] seeds = some (.ok final) →
      ∀ pid ploc, hasKey final (pid, ploc) = true →
      ∀ pkg, alGet r.dependencyResolve pid = some pkg →
      cfgAllParse parseCfg pkg = true) := by
  constructor
  · intro r parseCfg host target location en dep s dst hcfg hparse hdst
    obtain ⟨did, dname, dalias, dfeats, dopt, ddef, dtarget, dkind⟩ := dep
    simp only at hcfg hdst
    subst hcfg
    cases location <;> cases dkind <;>
      simp [edgeAdmit, hparse, hdst, depLocation]
  · intro r parseCfg host target fuel seeds final hrun
    have hinv := resolveLoop_inv r parseCfg host target
      (fun resolved _ => ∀ pid ploc, hasKey resolved (pid, ploc) = true →
        ∀ pkg, alGet r.dependencyResolve pid = some pkg →
        cfgAllParse parseCfg pkg = true)
      ?_ fuel [] seeds final ?_ hrun
    · exact hinv
    · intro resolved id loc feats rest resolved' pushes hP hstepok
      obtain ⟨pkg0, flattened, st0, st1, hpkg0, hfl, hst0, hst1, hcases⟩ :=
        resolveStep_ok_elim r parseCfg host target resolved id loc feats resolved' pushes hstepok
      intro pid' ploc' hkey' pkg' hpkg'
      rcases hcases with ⟨hex, hch, hres, hpush⟩ | ⟨admitted, st2, hadm, hproc, hres⟩
      · subst hres
        rcases hasKey_alSet _ _ _ _ hkey' with heq | hold
        · have h1 : pid' = id := congrArg Prod.fst heq
          have h2 : ploc' = loc := congrArg Prod.snd heq
          subst h1
          subst h2
          exact hP pid' ploc' hex pkg' hpkg'
        · exact hP pid' ploc' hold pkg' hpkg'
      · subst hres
        rcases hasKey_alSet _ _ _ _ hkey' with heq | hkey2
        · have h1 : pid' = id := congrArg Prod.fst heq
          subst h1
          have hpp : pkg' = pkg0 := by
            rw [hpkg0] at hpkg'
            injection hpkg' with hh
            exact hh.symm
          subst hpp
          unfold cfgAllParse
          exact collectAdmitted_cfg_parse r parseCfg host target loc _ pkg'.deps admitted hadm
        · rcases hasKey_alSet _ _ _ _ hkey2 with heq | hold
          · have h1 : pid' = id := congrArg Prod.fst heq
            subst h1
            have hpp : pkg' = pkg0 := by
              rw [hpkg0] at hpkg'
              injection hpkg' with hh
              exact hh.symm
            subst hpp
            unfold cfgAllParse
            exact collectAdmitted_cfg_parse r parseCfg host target loc _ pkg'.deps admitted hadm
          · exact hP pid' ploc' hold pkg' hpkg'
    · intro pid ploc hkey pkg hpkg
      simp [hasKey, alGet] at hkey

/-- Witness for the amended claim C9: a concrete malformed edge aborts with
the bad-cfg error, and in the completed run of example E the root package has
all its cfg predicates parseable. -/
theorem c9_bad_cfg_fatal_amended_witness :
    edgeAdmit resolverDemoFa parseCfgDemo hostInfoDemo targetInfoDemo Location.target []
        depBadCfgDemo = .error (.badCfg "???") ∧
    cfgAllParse parseCfgDemo pwdRootEDemo = true :=
  ⟨c9_bad_cfg_fatal_amended.1 resolverDemoFa parseCfgDemo hostInfoDemo targetInfoDemo
      Location.target [] depBadCfgDemo "???" _ (by rfl) (by rfl) (by rfl),
    c9_bad_cfg_fatal_amended.2 resolverDemoE parseCfgDemo hostInfoDemo targetInfoDemo 10
      [("rootE-id", Location.target, [])] resolvedDemoE (by rfl) "rootE-id" Location.target
      (by rfl) pwdRootEDemo (by rfl)⟩

theorem applyDep_ok_lookup (r : CargoResolver) (en : List (String × List FeatureDep))
    (st : ResolvedPackageBorrow) (dep : ResolveDep) (depLoc : Location)
    (st' : ResolvedPackageBorrow) (h : applyDep r en st dep depLoc = .ok st') :
    ∃ dpkg, alGet r.dependencyResolve dep.id = some dpkg := by
  unfold applyDep at h
  split at h
  · cases h
  · rename_i dpkg hdpkg
    exact ⟨dpkg, hdpkg⟩

theorem pushFor_some_elim (resolved : ResolvedPackageMap) (depId : PkgId)
    (depLoc : Location) (recFeatures : List String) (entry : StackEntry)
    (h : pushFor resolved depId depLoc recFeatures = some entry) :
    entry.1 = depId ∧ entry.2.1 = depLoc := by
  unfold pushFor at h
  split at h
  · injection h with h
    subst h
    exact ⟨rfl, rfl⟩
  · split at h
    · injection h with h
      subst h
      exact ⟨rfl, rfl⟩
    · cases h

theorem collectAdmitted_mem (r : CargoResolver) (parseCfg : String → Option CfgExpr)
    (host target : TargetInfo) (location : Location)
    (en : List (String × List FeatureDep)) :
    ∀ (deps : List ResolveDep) (admitted : List (ResolveDep × Location)),
      collectAdmitted r parseCfg host target location en deps = .ok admitted →
      ∀ x ∈ admitted, ∃ dep ∈ deps,
        edgeAdmit r parseCfg host target location en dep = .ok (some x) := by
  intro deps
  induction deps with
  | nil =>
    intro admitted h x hx
    simp only [collectAdmitted, Except.ok.injEq] at h
    subst h
    cases hx
  | cons dep rest ih =>
    intro admitted h x hx
    simp only [collectAdmitted] at h
    split at h
    · cases h
    · rename_i hadm
      obtain ⟨dep', hmem, hd⟩ := ih admitted h x hx
      exact ⟨dep', List.mem_cons_of_mem _ hmem, hd⟩
    · rename_i y hadm
      split at h
      · cases h
      · rename_i adm' hrest
        injection h with h
        subst h
        rcases List.mem_cons.mp hx with rfl | hx
        · exact ⟨dep, List.mem_cons_self _ _, hadm⟩
        · obtain ⟨dep', hmem, hd⟩ := ih adm' hrest x hx
          exact ⟨dep', List.mem_cons_of_mem _ hmem, hd⟩

theorem processDeps_pushes (r : CargoResolver) (en : List (String × List FeatureDep))
    (id : PkgId) (location : Location) (resolved : ResolvedPackageMap) :
    ∀ (admitted : List (ResolveDep × Location)) (st : ResolvedPackageBorrow)
      (pushes : List StackEntry) (st' : ResolvedPackageBorrow) (pushes' : List StackEntry),
      processDeps r en id location resolved admitted st pushes = .ok (st', pushes') →
      ∀ e ∈ pushes', e ∈ pushes ∨ ∃ dp ∈ admitted,
        (∃ dpkg, alGet r.dependencyResolve (dp : ResolveDep × Location).1.id = some dpkg) ∧
        e.1 = dp.1.id ∧ e.2.1 = dp.2 := by
  intro admitted
  induction admitted with
  | nil =>
    intro st pushes st' pushes' h e he
    simp only [processDeps, Except.ok.injEq, Prod.mk.injEq] at h
    obtain ⟨h1, h2⟩ := h
    subst h2
    exact Or.inl he
  | cons dp rest ih =>
    intro st pushes st' pushes' h e he
    obtain ⟨dep, depLoc⟩ := dp
    simp only [processDeps] at h
    split at h
    · cases h
    · rename_i stA happly
      split at h
      · cases h
      · split at h
        · rename_i entry hpush
          have hres := ih stA (pushes ++ [entry]) st' pushes' h e he
          rcases hres with hmem | ⟨dp', hdp', hlk, h1, h2⟩
          · rcases List.mem_append.mp hmem with hmem | hmem
            · exact Or.inl hmem
            · right
              refine ⟨(dep, depLoc), List.mem_cons_self _ _, applyDep_ok_lookup r en st dep depLoc stA happly, ?_⟩
              have heq : e = entry := List.mem_singleton.mp hmem
              subst heq
              exact pushFor_some_elim _ _ _ _ _ hpush
          · exact Or.inr ⟨dp', List.mem_cons_of_mem _ hdp', hlk, h1, h2⟩
        · have hres := ih stA pushes st' pushes' h e he
          rcases hres with hmem | ⟨dp', hdp', hlk, h1, h2⟩
          · exact Or.inl hmem
          · exact Or.inr ⟨dp', List.mem_cons_of_mem _ hdp', hlk, h1, h2⟩

theorem edgeAdmit_ok_some_elim (r : CargoResolver) (parseCfg : String → Option CfgExpr)
    (host target : TargetInfo) (location : Location)
    (en : List (String × List FeatureDep)) (dep d : ResolveDep) (l : Location)
    (dpkg : PackageWithDeps)
    (h : edgeAdmit r parseCfg host target location en dep = .ok (some (d, l)))
    (hdpkg : alGet r.dependencyResolve dep.id = some dpkg) :
    d = dep ∧ l = depLocation location dep.kind dpkg.isProcMacro := by
  simp only [edgeAdmit] at h
  split at h
  · cases h
  · rename_i depLoc hdl
    have hdl' : depLoc = depLocation location dep.kind dpkg.isProcMacro := by
      revert hdl
      cases location with
      | host =>
        intro hdl
        cases hdl
        rfl
      | target =>
        cases hk : dep.kind with
        | build =>
          intro hdl
          cases hdl
          simp [depLocation]
        | normal =>
          rw [hdpkg]
          intro hdl
          cases hdl
          rfl
        | development =>
          rw [hdpkg]
          intro hdl
          cases hdl
          rfl
    subst hdl'
    split at h
    · cases h
    · cases h
    · split at h
      · split at h
        · injection h with h
          injection h with h
          injection h with h1 h2
          exact ⟨h1.symm, h2.symm⟩
        · cases h
      · injection h with h
        injection h with h
        injection h with h1 h2
        exact ⟨h1.symm, h2.symm⟩

theorem initialStack_mem (r : CargoResolver) :
    ∀ (members : List PkgId) (seeds : List StackEntry),
      (members.foldr (fun id (acc : Except ResolveError (List StackEntry)) =>
        match acc with
        | .error e => .error e
        | .ok l =>
          match alGet r.dependencyResolve id with
          | none => .error (.unknownPackage id)
          | some pkg => .ok ((id, Location.target, pkg.package.features.map (fun kv => kv.1)) :: l))
        (.ok [])) = Except.ok seeds →
      ∀ e ∈ seeds, e.2.1 = Location.target ∧ e.1 ∈ members := by
  intro members
  induction members with
  | nil =>
    intro seeds h e he
    simp only [List.foldr, Except.ok.injEq] at h
    subst h
    cases he
  | cons m rest ih =>
    intro seeds h e he
    simp only [List.foldr] at h
    split at h
    · cases h
    · rename_i l hrest
      split at h
      · cases h
      · injection h with h
        subst h
        rcases List.mem_cons.mp he with rfl | he
        · exact ⟨rfl, List.mem_cons_self _ _⟩
        · obtain ⟨h1, h2⟩ := ih l hrest e he
          exact ⟨h1, List.mem_cons_of_mem _ h2⟩

theorem edgeAdmit_ok_some_fst (r : CargoResolver) (parseCfg : String → Option CfgExpr)
    (host target : TargetInfo) (location : Location)
    (en : List (String × List FeatureDep)) (dep d : ResolveDep) (l : Location)
    (h : edgeAdmit r parseCfg host target location en dep = .ok (some (d, l))) :
    d = dep := by
  simp only [edgeAdmit] at h
  split at h
  · cases h
  · split at h
    · cases h
    · cases h
    · split at h
      · split at h
        · injection h with h
          injection h with h
          injection h with h1 h2
          exact h1.symm
        · cases h
      · injection h with h
        injection h with h
        injection h with h1 h2
        exact h1.symm

theorem depLocation_host_iff :
    ∀ (loc : Location) (kind : DependencyKind) (pm : Bool),
      depLocation loc kind pm = Location.host ↔
        ((loc = Location.target ∧ (kind = DependencyKind.build ∨ pm = true)) ∨
          loc = Location.host) := by
  intro loc kind pm
  cases loc <;> cases kind <;> cases pm <;> simp [depLocation]

/-- Claim C3: an edge processed from a state at a location resolves its
destination at Host exactly when the source is at Target and the edge kind is
Build or the destination is a proc macro (otherwise it stays at the source
location); consequently every resolution-state entry at Host of a completed
run is reachable from a workspace member along a path crossing at least one
such edge. -/
theorem c3_host_target_partition :
    (∀ (loc : Location) (kind : DependencyKind) (pm : Bool),
      depLocation loc kind pm = Location.host ↔
        ((loc = Location.target ∧ (kind = DependencyKind.build ∨ pm = true)) ∨
          loc = Location.host)) ∧
    (∀ (r : CargoResolver) (parseCfg : String → Option CfgExpr)
        (host target : TargetInfo) (fuel : Nat) (id : PkgId),
      hostResolvedProbe (runResolveLoop r parseCfg host target fuel) id = true →
      Reach r id Location.host true) := by
  constructor
  · exact depLocation_host_iff
  · intro r parseCfg host target fuel id hprobe
    unfold hostResolvedProbe runResolveLoop at hprobe
    cases hseed : initialStack r with
    | error e =>
      rw [hseed] at hprobe
      simp at hprobe
    | ok seeds =>
      rw [hseed] at hprobe
      simp only [Except.ok.injEq] at hprobe
      cases hrun : resolveLoop r parseCfg host target fuel [] seeds.reverse with
      | none =>
        rw [hrun] at hprobe
        simp at hprobe
      | some res =>
        cases res with
        | error err =>
          rw [hrun] at hprobe
          simp at hprobe
        | ok final =>
          rw [hrun] at hprobe
          have hinv := resolveLoop_inv r parseCfg host target
            (fun resolved stack =>
              (∀ pid ploc, hasKey resolved (pid, ploc) = true →
                ∃ b, Reach r pid ploc b ∧ (ploc = Location.host → b = true)) ∧
              (∀ e ∈ stack, ∃ b, Reach r e.1 e.2.1 b ∧ (e.2.1 = Location.host → b = true)))
            ?_ fuel [] seeds.reverse final ⟨?_, ?_⟩ hrun
          · obtain ⟨b, hb, hhost⟩ := hinv.1 id Location.host hprobe
            have hbt := hhost rfl
            subst hbt
            exact hb
          · intro resolved id' loc feats rest resolved' pushes hP hstepok
            obtain ⟨pkg0, flattened, st0, st1, hpkg0, hfl, hst0, hst1, hcases⟩ :=
              resolveStep_ok_elim r parseCfg host target resolved id' loc feats
                resolved' pushes hstepok
            have hhead := hP.2 (id', loc, feats) (List.mem_cons_self _ _)
            constructor
            · intro pid ploc hkey
              rcases hcases with ⟨hex, hch, hres, hpush⟩ | ⟨admitted, st2, hadm, hproc, hres⟩ <;>
                subst hres
              · rcases hasKey_alSet _ _ _ _ hkey with heq | hold
                · have h1 : pid = id' := congrArg Prod.fst heq
                  have h2 : ploc = loc := congrArg Prod.snd heq
                  subst h1
                  subst h2
                  exact hhead
                · exact hP.1 pid ploc hold
              · rcases hasKey_alSet _ _ _ _ hkey with heq | hkey2
                · have h1 : pid = id' := congrArg Prod.fst heq
                  have h2 : ploc = loc := congrArg Prod.snd heq
                  subst h1
                  subst h2
                  exact hhead
                · rcases hasKey_alSet _ _ _ _ hkey2 with heq | hold
                  · have h1 : pid = id' := congrArg Prod.fst heq
                    have h2 : ploc = loc := congrArg Prod.snd heq
                    subst h1
                    subst h2
                    exact hhead
                  · exact hP.1 pid ploc hold
            · intro e he
              rcases List.mem_append.mp he with hpushmem | hrest
              · rw [List.mem_reverse] at hpushmem
                rcases hcases with ⟨hex, hch, hres, hpush⟩ | ⟨admitted, st2, hadm, hproc, hres⟩
                · rw [hpush] at hpushmem
                  cases hpushmem
                · have hsrc := processDeps_pushes r _ id' loc _ admitted st1 [] st2 pushes
                    hproc e hpushmem
                  rcases hsrc with habs | ⟨dp, hdpmem, ⟨dpkg, hdpkg⟩, he1, he2⟩
                  · cases habs
                  · obtain ⟨dep0, hdep0, hedge⟩ := collectAdmitted_mem r parseCfg host target loc
                      _ pkg0.deps admitted hadm dp hdpmem
                    have hfst : dp.1 = dep0 :=
                      edgeAdmit_ok_some_fst r parseCfg host target loc _ dep0 dp.1 dp.2 hedge
                    rw [hfst] at hdpkg
                    obtain ⟨-, hsnd⟩ := edgeAdmit_ok_some_elim r parseCfg host target loc _
                      dep0 dp.1 dp.2 dpkg hedge hdpkg
                    obtain ⟨b, hb, hbh⟩ := hhead
                    refine ⟨b || (decide (dep0.kind = DependencyKind.build) || dpkg.isProcMacro),
                      ?_, ?_⟩
                    · rw [he1, hfst, he2, hsnd]
                      exact Reach.step id' loc b pkg0 dep0 dpkg hb hpkg0 hdep0 hdpkg
                    · intro hh
                      rw [he2, hsnd] at hh
                      rcases (depLocation_host_iff loc dep0.kind dpkg.isProcMacro).mp hh with
                        ⟨hloc, hq⟩ | hloc
                      · rcases hq with hq | hq
                        · simp [hq]
                        · simp [hq]
                      · rw [hbh hloc]
                        rfl
              · exact hP.2 e (List.mem_cons_of_mem _ hrest)
          · intro pid ploc hkey
            simp [hasKey, alGet] at hkey
          · intro e he
            rw [List.mem_reverse] at he
            have hprop : e.2.1 = Location.target ∧ e.1 ∈ r.workspaceMembers := by
              have := initialStack_mem r r.workspaceMembers seeds ?_ e he
              · exact this
              · exact hseed
            refine ⟨false, ?_, ?_⟩
            · rw [hprop.1]
              exact Reach.member e.1 hprop.2
            · intro hh
              rw [hprop.1] at hh
              cases hh

/-- Witness for claim C3: in the completed run of example A the build
dependency is resolved at Host, so it is reachable from the workspace member
across a build edge. -/
theorem c3_host_target_partition_witness :
    hostResolvedProbe (runResolveLoop resolverDemoA parseCfgDemo hostInfoDemo targetInfoDemo 10)
        "bd-id" = true ∧
    Reach resolverDemoA "bd-id" Location.host true :=
  ⟨by decide,
    c3_host_target_partition.2 resolverDemoA parseCfgDemo hostInfoDemo targetInfoDemo 10
      "bd-id" (by decide)⟩

theorem dataKeysOk_annUpdate (host target : TargetInfo) (resolved : ResolvedPackageMap)
    (data : AnnData) (cid key : String) (f : CrateAnnotation → CrateAnnotation)
    (hdata : dataKeysOk host target resolved data)
    (hkey : goodKey host target resolved key) :
    dataKeysOk host target resolved (annUpdate data cid key f) := by
  intro ce hce ke hke
  unfold annUpdate at hce
  rcases mem_alSet _ _ _ _ hce with rfl | hce
  · rcases mem_alSet _ _ _ _ hke with rfl | hke
    · exact hkey
    · cases hm : alGet data cid with
      | none =>
        rw [hm] at hke
        cases hke
      | some m0 =>
        rw [hm] at hke
        exact hdata (cid, m0) (alGet_mem _ _ _ hm) ke hke
  · exact hdata ce hce ke hke

theorem dataKeysOk_ensure (host target : TargetInfo) (resolved : ResolvedPackageMap)
    (data : AnnData) (cid : String)
    (hdata : dataKeysOk host target resolved data) :
    dataKeysOk host target resolved (alSet data cid ((alGet data cid).getD [])) := by
  intro ce hce ke hke
  rcases mem_alSet _ _ _ _ hce with rfl | hce
  · cases hm : alGet data cid with
    | none =>
      rw [hm] at hke
      cases hke
    | some m0 =>
      rw [hm] at hke
      exact hdata (cid, m0) (alGet_mem _ _ _ hm) ke hke
  · exact hdata ce hce ke hke

theorem dataKeysOk_featFold (host target : TargetInfo) (resolved : ResolvedPackageMap)
    (cid key : String) (hkey : goodKey host target resolved key) :
    ∀ (fs : List String) (data : AnnData), dataKeysOk host target resolved data →
      dataKeysOk host target resolved
        (fs.foldl (fun d f => annUpdate d cid key (fun ann =>
          { ann with features := listInsert ann.features f })) data) := by
  intro fs
  induction fs with
  | nil => intro data hdata; exact hdata
  | cons f rest ih =>
    intro data hdata
    exact ih _ (dataKeysOk_annUpdate host target resolved data cid key _ hdata hkey)

theorem dataKeysOk_platFold (host target : TargetInfo) (resolved : ResolvedPackageMap)
    (cid : String) (g : CrateAnnotation → CrateAnnotation) :
    ∀ (ts : List Platform) (data : AnnData),
      dataKeysOk host target resolved data →
      (∀ p ∈ ts, goodKey host target resolved (platformToString p)) →
      dataKeysOk host target resolved
        (ts.foldl (fun d p => annUpdate d cid (platformToString p) g) data) := by
  intro ts
  induction ts with
  | nil => intro data hdata _; exact hdata
  | cons p rest ih =>
    intro data hdata hts
    exact ih _ (dataKeysOk_annUpdate host target resolved data cid _ g hdata
      (hts p (List.mem_cons_self _ _))) (fun q hq => hts q (List.mem_cons_of_mem _ hq))

theorem dataKeysOk_annotateAliases (host target : TargetInfo) (resolved : ResolvedPackageMap)
    (cid config : String) (key : DepKey) (depPkg : PackageWithDeps) (dep : DepBorrow)
    (hconfig : goodKey host target resolved config)
    (htargets : ∀ p ∈ dep.target, goodKey host target resolved (platformToString p)) :
    ∀ (aliases : List (Option String × Bool)) (data data' : AnnData),
      dataKeysOk host target resolved data →
      annotateAliases cid config key depPkg dep aliases data = .ok data' →
      dataKeysOk host target resolved data' := by
  intro aliases
  induction aliases with
  | nil =>
    intro data data' hdata h
    simp only [annotateAliases, Except.ok.injEq] at h
    subst h
    exact hdata
  | cons ao rest ih =>
    intro data data' hdata h
    obtain ⟨aliasOpt, optional⟩ := ao
    simp only [annotateAliases] at h
    split at h
    · cases h
    · rename_i dependency hdep
      split at h
      · exact ih _ data' (dataKeysOk_annUpdate host target resolved data cid config _ hdata hconfig) h
      · exact ih _ data' (dataKeysOk_platFold host target resolved cid _ dep.target data hdata htargets) h

theorem dataKeysOk_annotateDeps (r : CargoResolver) (host target : TargetInfo)
    (resolved : ResolvedPackageMap) (cid config : String)
    (hconfig : goodKey host target resolved config) :
    ∀ (depsList : List (DepKey × DepBorrow)) (data data' : AnnData),
      dataKeysOk host target resolved data →
      (∀ kr ∈ depsList, ∀ p ∈ ((kr : DepKey × DepBorrow)).2.target,
        goodKey host target resolved (platformToString p)) →
      annotateDeps r cid config depsList data = .ok data' →
      dataKeysOk host target resolved data' := by
  intro depsList
  induction depsList with
  | nil =>
    intro data data' hdata _ h
    simp only [annotateDeps, Except.ok.injEq] at h
    subst h
    exact hdata
  | cons kr rest ih =>
    intro data data' hdata hts h
    obtain ⟨key, dep⟩ := kr
    simp only [annotateDeps] at h
    split at h
    · cases h
    · rename_i depPkg hdepPkg
      split at h
      · cases h
      · rename_i dataA hA
        exact ih dataA data'
          (dataKeysOk_annotateAliases host target resolved cid config key depPkg dep hconfig
            (fun p hp => hts (key, dep) (List.mem_cons_self _ _) p hp) dep.aliasesOptional
            data dataA hdata hA)
          (fun kr' hkr' => hts kr' (List.mem_cons_of_mem _ hkr')) h

theorem dataKeysOk_annotateEntry (r : CargoResolver) (host target : TargetInfo)
    (resolved : ResolvedPackageMap) (data data' : AnnData)
    (entry : (PkgId × Location) × ResolvedPackageBorrow)
    (hentry : entry ∈ resolved)
    (hdata : dataKeysOk host target resolved data)
    (h : annotateEntry r host target resolved data entry = .ok data') :
    dataKeysOk host target resolved data' := by
  simp only [annotateEntry] at h
  split at h
  · cases h
  · rename_i pkgWD hpkg
    have htargets : ∀ kr ∈ entry.2.deps, ∀ p ∈ ((kr : DepKey × DepBorrow)).2.target,
        goodKey host target resolved (platformToString p) := by
      intro kr hkr p hp
      exact Or.inr (Or.inr ⟨entry, hentry, kr, hkr, p, hp, rfl⟩)
    have hd1 : dataKeysOk host target resolved
        (alSet data (crateIdFrom pkgWD.package)
          ((alGet data (crateIdFrom pkgWD.package)).getD [])) :=
      dataKeysOk_ensure host target resolved data _ hdata
    split at h
    · have hconfig : goodKey host target resolved host.triple := Or.inl rfl
      split at h
      · exact dataKeysOk_annotateDeps r host target resolved _ host.triple hconfig
          entry.2.deps _ data'
          (dataKeysOk_featFold host target resolved _ host.triple hconfig _ _ hd1) htargets h
      · exact dataKeysOk_annotateDeps r host target resolved _ host.triple hconfig
          entry.2.deps _ data'
          (dataKeysOk_featFold host target resolved _ host.triple hconfig _ _ hd1) htargets h
    · have hconfig : goodKey host target resolved target.triple := Or.inr (Or.inl rfl)
      split at h
      · exact dataKeysOk_annotateDeps r host target resolved _ target.triple hconfig
          entry.2.deps _ data'
          (dataKeysOk_featFold host target resolved _ target.triple hconfig _ _ hd1) htargets h
      · exact dataKeysOk_annotateDeps r host target resolved _ target.triple hconfig
          entry.2.deps _ data'
          (dataKeysOk_featFold host target resolved _ target.triple hconfig _ _ hd1) htargets h

theorem dataKeysOk_annotateAll (r : CargoResolver) (host target : TargetInfo)
    (resolved : ResolvedPackageMap) :
    ∀ (entries : List ((PkgId × Location) × ResolvedPackageBorrow)) (data data' : AnnData),
      (∀ e ∈ entries, e ∈ resolved) →
      dataKeysOk host target resolved data →
      annotateAll r host target resolved entries data = .ok data' →
      dataKeysOk host target resolved data' := by
  intro entries
  induction entries with
  | nil =>
    intro data data' _ hdata h
    simp only [annotateAll, Except.ok.injEq] at h
    subst h
    exact hdata
  | cons e rest ih =>
    intro data data' hsub hdata h
    simp only [annotateAll] at h
    split at h
    · cases h
    · rename_i dataA hA
      exact ih dataA data' (fun e' he' => hsub e' (List.mem_cons_of_mem _ he'))
        (dataKeysOk_annotateEntry r host target resolved data dataA e
          (hsub e (List.mem_cons_self _ _)) hdata hA) h

/-- Counterexample to claim C7: in example E the crate rootE 1 carries an
annotation under the configuration key cfg(unix), which is neither the run's
host triple nor its target triple — platform-gated dependency records are
keyed by the platform predicate's rendering, not by a triple string. -/
theorem c7_counterexample :
    hasKey ((alGet annDemoE "rootE 1").getD []) "cfg(unix)" = true ∧
    "cfg(unix)" ≠ hostInfoDemo.triple ∧ "cfg(unix)" ≠ targetInfoDemo.triple :=
  ⟨by rfl, by decide, by decide⟩

/-- Amended claim C7: every configuration key under which the annotation
phase of a resolve(host, target) run records data is the host triple, the
target triple, or the string rendering of a platform predicate recorded on
some dep record of the resolution state (such as cfg(unix)); the keys are
not all triple strings. -/
theorem c7_annotation_keys_amended (r : CargoResolver) (host target : TargetInfo)
    (resolved : ResolvedPackageMap) (data : AnnData)
    (h : annotate r host target resolved [] = .ok data) :
    dataKeysOk host target resolved data := by
  simp only [annotate] at h
  exact dataKeysOk_annotateAll r host target resolved resolved [] data
    (fun e he => he) (fun ce hce => absurd hce (List.not_mem_nil ce)) h

/-- Witness for the amended claim C7: in example E the annotation phase
succeeds and every configuration key of its output is accounted for. -/
theorem c7_annotation_keys_amended_witness :
    annotate resolverDemoE hostInfoDemo targetInfoDemo resolvedDemoE [] = .ok annDemoE ∧
    dataKeysOk hostInfoDemo targetInfoDemo resolvedDemoE annDemoE :=
  ⟨by rfl, c7_annotation_keys_amended resolverDemoE hostInfoDemo targetInfoDemo
    resolvedDemoE annDemoE (by rfl)⟩

theorem mem_flattenLoop (declared : List (String × List String)) :
    ∀ (fuel : Nat) (flat stack : List String) (x : String), x ∈ flat →
      x ∈ flattenLoop declared fuel flat stack := by
  intro fuel
  induction fuel with
  | zero =>
    intro flat stack x hx
    simpa [flattenLoop] using hx
  | succ n ih =>
    intro flat stack x hx
    cases stack with
    | nil => simpa [flattenLoop] using hx
    | cons feat rest =>
      rw [flattenLoop]
      cases h : alGet declared feat with
      | none => exact ih flat rest x hx
      | some rhs =>
        by_cases hmem : feat ∈ flat
        · simp only [if_pos hmem]
          exact ih flat rest x hx
        · simp only [if_neg hmem]
          exact ih (flat ++ [feat]) (rest ++ rhs) x (List.mem_append_left _ hx)

theorem self_mem_flattenOne (declared : List (String × List String)) (f : String)
    (rhs : List String) : f ∈ flattenOne declared f rhs :=
  mem_flattenLoop declared _ [f] rhs f (List.mem_singleton.mpr rfl)

theorem alGet_map_keys {κ ν μ : Type} [DecidableEq κ] (g : κ × ν → μ) :
    ∀ (l : List (κ × ν)) (k : κ),
      alGet (l.map (fun kv => (kv.1, g kv))) k =
        (alGet l k).map (fun v => g (k, v)) := by
  intro l
  induction l with
  | nil => intro k; rfl
  | cons kv rest ih =>
    intro k
    obtain ⟨k', v⟩ := kv
    by_cases hk : k' = k
    · subst hk
      simp [alGet]
    · simp only [List.map_cons, alGet, if_neg hk]
      exact ih k

theorem alGet_of_mem_key {κ ν : Type} [DecidableEq κ] (l : List (κ × ν)) (kv : κ × ν)
    (h : kv ∈ l) : ∃ v, alGet l kv.1 = some v := by
  induction l with
  | nil => cases h
  | cons hd tl ih =>
    obtain ⟨k', v'⟩ := hd
    by_cases hk : k' = kv.1
    · exact ⟨v', by simp [alGet, hk]⟩
    · rcases List.mem_cons.mp h with rfl | h'
      · exact absurd rfl hk
      · obtain ⟨v, hv⟩ := ih h'
        exact ⟨v, by simp [alGet, if_neg hk, hv]⟩

theorem selfContained_new (m : Metadata) :
    selfContainedFlatB (CargoResolver.new m) = true := by
  rw [selfContainedFlatB, List.all_eq_true]
  intro entry hentry
  rw [List.all_eq_true]
  intro fr hfr
  simp only [CargoResolver.new, List.mem_map] at hentry
  obtain ⟨package, hpmem, hpeq⟩ := hentry
  have hflat : entry.2.flattenedFeatures =
      package.features.map (fun fr => (fr.1, flattenOne package.features fr.1 fr.2)) := by
    rw [← hpeq]
  have hfeats : entry.2.package.features = package.features := by
    rw [← hpeq]
  rw [hfeats] at hfr
  obtain ⟨rhs, hrhs⟩ := alGet_of_mem_key package.features fr hfr
  have : alGet entry.2.flattenedFeatures fr.1 = some (flattenOne package.features fr.1 rhs) := by
    rw [hflat]
    have := alGet_map_keys (fun kv => flattenOne package.features kv.1 kv.2)
      package.features fr.1
    rw [this, hrhs]
    rfl
  rw [this]
  exact decide_eq_true (self_mem_flattenOne package.features fr.1 rhs)

theorem flatGood_of_declared (r : CargoResolver) (id : PkgId) (pwd : PackageWithDeps)
    (f : String) (hself : selfContainedFlatB r = true)
    (hpwd : alGet r.dependencyResolve id = some pwd)
    (hkey : hasKey pwd.package.features f = true) : flatGood r id f := by
  rw [selfContainedFlatB, List.all_eq_true] at hself
  have hmem := alGet_mem r.dependencyResolve id pwd hpwd
  have hall := hself (id, pwd) hmem
  rw [List.all_eq_true] at hall
  rw [hasKey] at hkey
  cases hrhs : alGet pwd.package.features f with
  | none => rw [hrhs] at hkey; cases hkey
  | some rhs =>
    have hfr := hall (f, rhs) (alGet_mem pwd.package.features f rhs hrhs)
    cases hflat : alGet pwd.flattenedFeatures f with
    | none => rw [hflat] at hfr; cases hfr
    | some flat =>
      rw [hflat] at hfr
      exact ⟨pwd, hpwd, flat, hflat, of_decide_eq_true hfr⟩

theorem alSet_self {κ ν : Type} [DecidableEq κ] (l : List (κ × ν)) (k : κ) (v : ν)
    (h : alGet l k = some v) : alSet l k v = l := by
  induction l with
  | nil => simp [alGet] at h
  | cons hd tl ih =>
    obtain ⟨k', v'⟩ := hd
    by_cases hk : k' = k
    · subst hk
      have h' : v' = v := by simpa [alGet] using h
      subst h'
      simp [alSet]
    · simp only [alGet, if_neg hk] at h
      simp [alSet, if_neg hk, ih h]

theorem alSet_alSet {κ ν : Type} [DecidableEq κ] (l : List (κ × ν)) (k : κ) (v v' : ν) :
    alSet (alSet l k v) k v' = alSet l k v' := by
  induction l with
  | nil => simp [alSet]
  | cons hd tl ih =>
    obtain ⟨k'', v''⟩ := hd
    by_cases hk : k'' = k
    · simp [alSet, hk]
    · simp [alSet, if_neg hk, ih]

theorem applyDep_spec (r : CargoResolver) (en : List (String × List FeatureDep))
    (st st' : ResolvedPackageBorrow) (dep : ResolveDep) (depLoc : Location)
    (h : applyDep r en st dep depLoc = .ok st') :
    st'.features = st.features ∧
    ∃ db, st'.deps = alSet st.deps ⟨dep.id, depLoc, dep.kind⟩ db := by
  simp only [applyDep] at h
  split at h
  · cases h
  · simp only [Except.ok.injEq] at h
    subst h
    exact ⟨rfl, ⟨_, rfl⟩⟩

theorem applyDep_default (r : CargoResolver) (en : List (String × List FeatureDep))
    (st st' : ResolvedPackageBorrow) (dep : ResolveDep) (depLoc : Location)
    (dpkg : PackageWithDeps)
    (h : applyDep r en st dep depLoc = .ok st')
    (hdf : dep.useDefaultFeatues = true)
    (hdpkg : alGet r.dependencyResolve dep.id = some dpkg)
    (hkey : hasKey dpkg.package.features "default" = true) :
    "default" ∈
      ((alGet st'.deps ⟨dep.id, depLoc, dep.kind⟩).getD DepBorrow.empty).features := by
  simp only [applyDep, hdpkg, hdf, hkey, Bool.true_and, if_true] at h
  simp only [Except.ok.injEq] at h
  subst h
  simp only [alGet_alSet_eq, Option.getD_some]
  rw [mem_listExtend]
  left
  rw [mem_listInsert]
  right
  rfl

theorem pushFor_some (resolved : ResolvedPackageMap) (did : PkgId) (dl : Location)
    (fs : List String) (e : StackEntry) (h : pushFor resolved did dl fs = some e) :
    e = (did, dl, fs) := by
  rw [pushFor] at h
  split at h
  · exact (Option.some.injEq _ _ ▸ h).symm
  · split at h
    · exact (Option.some.injEq _ _ ▸ h).symm
    · cases h

theorem pushFor_none (resolved : ResolvedPackageMap) (did : PkgId) (dl : Location)
    (fs : List String) (h : pushFor resolved did dl fs = none) :
    ∃ pkg, alGet resolved (did, dl) = some pkg ∧ ∀ x ∈ fs, x ∈ pkg.features := by
  rw [pushFor] at h
  split at h
  · cases h
  · rename_i pkg hpkg
    split at h
    · cases h
    · rename_i hany
      refine ⟨pkg, hpkg, ?_⟩
      intro x hx
      rw [Bool.not_eq_true, List.any_eq_false] at hany
      have := hany x hx
      simpa using this

theorem processDeps_spec (r : CargoResolver) (en : List (String × List FeatureDep))
    (id : PkgId) (location : Location) (resolvedArg : ResolvedPackageMap) :
    ∀ (admitted : List (ResolveDep × Location)) (st : ResolvedPackageBorrow)
      (pushes : List StackEntry) (st2 : ResolvedPackageBorrow) (pushes2 : List StackEntry),
      processDeps r en id location resolvedArg admitted st pushes = .ok (st2, pushes2) →
      st2.features = st.features ∧
      (∀ p ∈ pushes, p ∈ pushes2) ∧
      (∀ (k : DepKey) (db2 : DepBorrow), alGet st2.deps k = some db2 →
        ∀ f ∈ db2.features,
          (∃ db, alGet st.deps k = some db ∧ f ∈ db.features) ∨
          f ∈ ((alGet resolvedArg (k.id, k.loc)).getD ResolvedPackageBorrow.empty).features ∨
          ∃ se ∈ pushes2, (se : StackEntry).1 = k.id ∧ se.2.1 = k.loc ∧ f ∈ se.2.2) := by
  intro admitted
  induction admitted with
  | nil =>
    intro st pushes st2 pushes2 h
    simp only [processDeps, Except.ok.injEq, Prod.mk.injEq] at h
    obtain ⟨h1, h2⟩ := h
    subst h1
    subst h2
    exact ⟨rfl, fun p hp => hp, fun k db2 hget f hf => Or.inl ⟨db2, hget, hf⟩⟩
  | cons hd rest ih =>
    intro st pushes st2 pushes2 h
    obtain ⟨dep, depLoc⟩ := hd
    simp only [processDeps] at h
    split at h
    · cases h
    · rename_i st' hap
      split at h
      · cases h
      · rename_i hne
        obtain ⟨hfeat', db4, hdeps'⟩ := applyDep_spec r en st st' dep depLoc hap
        have hrecfeats :
            ((alGet st'.deps ⟨dep.id, depLoc, dep.kind⟩).getD DepBorrow.empty).features =
              db4.features := by
          rw [hdeps', alGet_alSet_eq]
          rfl
        split at h
        · rename_i entry hpf
          obtain ⟨ih1, ih2, ih3⟩ := ih st' (pushes ++ [entry]) st2 pushes2 h
          have hentry := pushFor_some resolvedArg dep.id depLoc _ entry hpf
          refine ⟨ih1.trans hfeat', fun p hp => ih2 p (List.mem_append_left _ hp), ?_⟩
          intro k db2 hget f hf
          rcases ih3 k db2 hget f hf with ⟨db, hdb, hfdb⟩ | hres | hpush
          · rw [hdeps'] at hdb
            by_cases hk : k = ⟨dep.id, depLoc, dep.kind⟩
            · subst hk
              rw [alGet_alSet_eq, Option.some.injEq] at hdb
              subst hdb
              right; right
              refine ⟨entry,
                ih2 entry (List.mem_append_right _ (List.mem_singleton.mpr rfl)), ?_, ?_, ?_⟩
              · rw [hentry]
              · rw [hentry]
              · rw [hentry]
                show f ∈ ((alGet st'.deps ⟨dep.id, depLoc, dep.kind⟩).getD DepBorrow.empty).features
                rw [hrecfeats]
                exact hfdb
            · rw [alGet_alSet_ne _ _ _ _ hk] at hdb
              exact Or.inl ⟨db, hdb, hfdb⟩
          · exact Or.inr (Or.inl hres)
          · exact Or.inr (Or.inr hpush)
        · rename_i hpf
          obtain ⟨ih1, ih2, ih3⟩ := ih st' pushes st2 pushes2 h
          obtain ⟨pkg, hpkg, hsub⟩ := pushFor_none resolvedArg dep.id depLoc _ hpf
          refine ⟨ih1.trans hfeat', ih2, ?_⟩
          intro k db2 hget f hf
          rcases ih3 k db2 hget f hf with ⟨db, hdb, hfdb⟩ | hres | hpush
          · rw [hdeps'] at hdb
            by_cases hk : k = ⟨dep.id, depLoc, dep.kind⟩
            · subst hk
              rw [alGet_alSet_eq, Option.some.injEq] at hdb
              subst hdb
              right; left
              show f ∈ ((alGet resolvedArg (dep.id, depLoc)).getD
                ResolvedPackageBorrow.empty).features
              rw [hpkg, Option.getD_some]
              apply hsub
              show f ∈ ((alGet st'.deps ⟨dep.id, depLoc, dep.kind⟩).getD DepBorrow.empty).features
              rw [hrecfeats]
              exact hfdb
            · rw [alGet_alSet_ne _ _ _ _ hk] at hdb
              exact Or.inl ⟨db, hdb, hfdb⟩
          · exact Or.inr (Or.inl hres)
          · exact Or.inr (Or.inr hpush)

theorem depFeatInv_step (r : CargoResolver) (parseCfg : String → Option CfgExpr)
    (host target : TargetInfo) (resolved : ResolvedPackageMap) (id : PkgId)
    (loc : Location) (feats : List String) (rest : List StackEntry)
    (resolved' : ResolvedPackageMap) (pushes : List StackEntry)
    (hP : depFeatInv r resolved ((id, loc, feats) :: rest))
    (h : resolveStep r parseCfg host target resolved id loc feats = .ok (resolved', pushes)) :
    depFeatInv r resolved' (pushes.reverse ++ rest) := by
  obtain ⟨pkg, flattened, st0, st1, hpkg, hflat, hst0, hst1, hdisj⟩ :=
    resolveStep_ok_elim r parseCfg host target resolved id loc feats resolved' pushes h
  have hflatmem : ∀ f ∈ feats, flatGood r id f → f ∈ flattened := by
    intro f hf hg
    obtain ⟨pwd, hpwd, l, hl, hfl⟩ := hg
    rw [hpkg, Option.some.injEq] at hpwd
    subst hpwd
    rw [hflat]
    exact List.mem_flatten.mpr ⟨l, List.mem_filterMap.mpr ⟨f, hf, hl⟩, hfl⟩
  have hst1mem : ∀ f ∈ flattened, f ∈ st1.features := by
    intro f hf
    rw [hst1]
    exact insertFeatsGo_mem flattened st0.features false f hf
  have hst0sub : ∀ f ∈ st0.features, f ∈ st1.features := by
    intro f hf
    rw [hst1]
    exact insertFeatsGo_fst_mono flattened st0.features false f hf
  have hst1deps : st1.deps = st0.deps := by rw [hst1]
  rcases hdisj with ⟨ha, hb, hres', hpushes⟩ | ⟨admitted, st2, hadm, hproc, hres'⟩
  · cases halg : alGet resolved (id, loc) with
    | none => simp [hasKey, halg] at ha
    | some stA =>
      have hst0A : st0 = stA := by rw [hst0, halg]; rfl
      obtain ⟨hfix, hallin⟩ := insertFeatsGo_false flattened st0.features hb
      have hst1st0 : st1 = st0 := by rw [hst1, insertFeats, hfix]
      have halg0 : alGet resolved (id, loc) = some st0 := by rw [halg, hst0A]
      have hres'' : resolved' = resolved := by
        rw [hres', hst1st0, alSet_self resolved (id, loc) st0 halg0]
      subst hpushes
      rw [hres'']
      simp only [List.reverse_nil, List.nil_append]
      intro src st k db hsrc hdb f hf hgood
      rcases hP src st k db hsrc hdb f hf hgood with hin | ⟨se, hse, h1, h2, h3⟩
      · exact Or.inl hin
      · rcases List.mem_cons.mp hse with heq | hse'
        · subst heq
          have h1' : id = k.id := h1
          have h2' : loc = k.loc := h2
          have h3' : f ∈ feats := h3
          have hgood' : flatGood r id f := by rw [h1']; exact hgood
          left
          rw [← h1', ← h2', halg0]
          exact hallin f (hflatmem f h3' hgood')
        · exact Or.inr ⟨se, hse', h1, h2, h3⟩
  · obtain ⟨hfeat2, hpushmono, hrec⟩ := processDeps_spec r
      (enabledDepsOf pkg.package flattened) id loc (alSet resolved (id, loc) st1)
      admitted st1 [] st2 pushes hproc
    have hres'' : resolved' = alSet resolved (id, loc) st2 := by
      rw [hres', alSet_alSet]
    have hlookup1 : alGet resolved' (id, loc) = some st2 := by
      rw [hres'']
      exact alGet_alSet_eq resolved (id, loc) st2
    have hlookupne : ∀ key', key' ≠ (id, loc) →
        alGet resolved' key' = alGet resolved key' := by
      intro key' hk
      rw [hres'']
      exact alGet_alSet_ne resolved (id, loc) key' st2 hk
    have featuresAtMono : ∀ (key' : PkgId × Location) (f : String),
        f ∈ ((alGet resolved key').getD ResolvedPackageBorrow.empty).features →
        f ∈ ((alGet resolved' key').getD ResolvedPackageBorrow.empty).features := by
      intro key' f hf
      by_cases hk : key' = (id, loc)
      · subst hk
        rw [hlookup1]
        show f ∈ st2.features
        rw [hfeat2]
        cases halg : alGet resolved (id, loc) with
        | none =>
          rw [halg] at hf
          exact absurd hf (List.not_mem_nil f)
        | some stA =>
          rw [halg] at hf
          apply hst0sub
          rw [hst0, halg]
          exact hf
      · rw [hlookupne key' hk]
        exact hf
    have popRepair : ∀ f, f ∈ feats → flatGood r id f →
        f ∈ ((alGet resolved' (id, loc)).getD ResolvedPackageBorrow.empty).features := by
      intro f hf hg
      rw [hlookup1]
      show f ∈ st2.features
      rw [hfeat2]
      exact hst1mem f (hflatmem f hf hg)
    have liftDisj : ∀ (k : DepKey) (f : String), flatGood r k.id f →
        (f ∈ ((alGet resolved (k.id, k.loc)).getD ResolvedPackageBorrow.empty).features ∨
          ∃ se ∈ (id, loc, feats) :: rest,
            (se : StackEntry).1 = k.id ∧ se.2.1 = k.loc ∧ f ∈ se.2.2) →
        f ∈ ((alGet resolved' (k.id, k.loc)).getD ResolvedPackageBorrow.empty).features ∨
          ∃ se ∈ pushes.reverse ++ rest,
            (se : StackEntry).1 = k.id ∧ se.2.1 = k.loc ∧ f ∈ se.2.2 := by
      intro k f hg hd
      rcases hd with hin | ⟨se, hse, h1, h2, h3⟩
      · exact Or.inl (featuresAtMono (k.id, k.loc) f hin)
      · rcases List.mem_cons.mp hse with heq | hse'
        · subst heq
          have h1' : id = k.id := h1
          have h2' : loc = k.loc := h2
          have h3' : f ∈ feats := h3
          have hg' : flatGood r id f := by rw [h1']; exact hg
          left
          have hpop := popRepair f h3' hg'
          rw [h1', h2'] at hpop
          exact hpop
        · exact Or.inr ⟨se, List.mem_append_right _ hse', h1, h2, h3⟩
    intro src st k db hsrc hdb f hf hgood
    by_cases hsrceq : src = (id, loc)
    · subst hsrceq
      rw [hlookup1] at hsrc
      injection hsrc with hsrc
      subst hsrc
      rcases hrec k db hdb f hf with ⟨db1, hdb1, hfdb1⟩ | hres | ⟨se, hse, h1, h2, h3⟩
      · rw [hst1deps] at hdb1
        cases halg : alGet resolved (id, loc) with
        | none =>
          rw [hst0, halg] at hdb1
          exact Option.noConfusion hdb1
        | some stA =>
          have hst0A : st0 = stA := by rw [hst0, halg]; rfl
          have halg0 : alGet resolved (id, loc) = some st0 := by rw [halg, hst0A]
          exact liftDisj k f hgood (hP (id, loc) st0 k db1 halg0 hdb1 f hfdb1 hgood)
      · by_cases hk : (k.id, k.loc) = (id, loc)
        · left
          rw [hk, hlookup1]
          show f ∈ st2.features
          rw [hfeat2]
          rw [hk, alGet_alSet_eq] at hres
          exact hres
        · rw [alGet_alSet_ne _ _ _ _ hk] at hres
          exact Or.inl (featuresAtMono (k.id, k.loc) f hres)
      · exact Or.inr ⟨se, List.mem_append_left _ (List.mem_reverse.mpr hse), h1, h2, h3⟩
    · rw [hres'', alGet_alSet_ne _ _ _ _ hsrceq] at hsrc
      exact liftDisj k f hgood (hP src st k db hsrc hdb f hf hgood)

theorem depFeatInv_run (r : CargoResolver) (parseCfg : String → Option CfgExpr)
    (host target : TargetInfo) (fuel : Nat) (final : ResolvedPackageMap)
    (hrun : runResolveLoop r parseCfg host target fuel = some (.ok final)) :
    depFeatInv r final [] := by
  rw [runResolveLoop] at hrun
  cases hseed : initialStack r with
  | error e =>
    rw [hseed] at hrun
    simp at hrun
  | ok seeds =>
    rw [hseed] at hrun
    refine resolveLoop_inv r parseCfg host target (depFeatInv r) ?_ fuel [] seeds.reverse
      final ?_ hrun
    · intro resolved id loc feats rest resolved' pushes hP hstep
      exact depFeatInv_step r parseCfg host target resolved id loc feats rest resolved'
        pushes hP hstep
    · intro src st k db hsrc
      exact Option.noConfusion hsrc

/-- C2: for every dependency edge applied by the resolver with
use_default_features set whose destination package declares a feature
literally named default, the dep record's feature set gains default, and in
a completed resolve run the destination's resolved features contain
default. -/
theorem c2_default_feature_rule (m : Metadata) (parseCfg : String → Option CfgExpr)
    (host target : TargetInfo) (fuel : Nat) (final : ResolvedPackageMap)
    (hrun : runResolveLoop (CargoResolver.new m) parseCfg host target fuel =
      some (.ok final)) :
    (∀ (en : List (String × List FeatureDep)) (st st' : ResolvedPackageBorrow)
        (dep : ResolveDep) (depLoc : Location) (dpkg : PackageWithDeps),
        applyDep (CargoResolver.new m) en st dep depLoc = .ok st' →
        dep.useDefaultFeatues = true →
        alGet (CargoResolver.new m).dependencyResolve dep.id = some dpkg →
        hasKey dpkg.package.features "default" = true →
        "default" ∈
          ((alGet st'.deps ⟨dep.id, depLoc, dep.kind⟩).getD DepBorrow.empty).features) ∧
    (∀ (src : PkgId × Location) (st : ResolvedPackageBorrow) (k : DepKey) (db : DepBorrow)
        (dpkg : PackageWithDeps),
        alGet final src = some st → alGet st.deps k = some db →
        "default" ∈ db.features →
        alGet (CargoResolver.new m).dependencyResolve k.id = some dpkg →
        hasKey dpkg.package.features "default" = true →
        featureInResolved final (k.id, k.loc) "default") := by
  constructor
  · intro en st st' dep depLoc dpkg hap hdf hdpkg hkey
    exact applyDep_default (CargoResolver.new m) en st st' dep depLoc dpkg hap hdf
      hdpkg hkey
  · intro src st k db dpkg hsrc hdb hf hdpkg hkey
    have hgood : flatGood (CargoResolver.new m) k.id "default" :=
      flatGood_of_declared (CargoResolver.new m) k.id dpkg "default"
        (selfContained_new m) hdpkg hkey
    have hinv := depFeatInv_run (CargoResolver.new m) parseCfg host target fuel final hrun
    rcases hinv src st k db hsrc hdb "default" hf hgood with hin | ⟨se, hse, hrest⟩
    · cases halg : alGet final (k.id, k.loc) with
      | none =>
        rw [halg] at hin
        exact absurd hin (List.not_mem_nil "default")
      | some stD =>
        rw [halg] at hin
        exact ⟨stD, halg, hin⟩
    · exact absurd hse (List.not_mem_nil se)

/-- Witness for claim C2 at example A: applying the default-features demo
edge to an empty entry records default on the dep record, and the completed
run's leaf entry carries default among its resolved features. -/
theorem c2_default_feature_rule_witness :
    "default" ∈ ((alGet applyDefaultDemoSt.deps
      ⟨"leaf-id", Location.target, DependencyKind.normal⟩).getD DepBorrow.empty).features ∧
    featureInResolved resolvedDemoA ("leaf-id", Location.target) "default" := by
  have h := c2_default_feature_rule metaDemoA parseCfgDemo hostInfoDemo targetInfoDemo 10
    resolvedDemoA (by rfl)
  constructor
  · exact h.1 [] ResolvedPackageBorrow.empty applyDefaultDemoSt depUseDefaultDemo
      Location.target pwdLeafDemo (by rfl) (by rfl) (by rfl) (by rfl)
  · exact h.2 ("root-id", Location.target) rootStDemoA
      ⟨"leaf-id", Location.target, DependencyKind.normal⟩ leafRecDemoA pwdLeafDemo
      (by rfl) (by rfl) (by decide) (by rfl) (by rfl)
